import Mathlib

/-!
Shallow embedding of the core of the js-libp2p networking stack, together
with proofs of the behavioural claims about its dial queue, identify
service, address manager, peer store and node lifecycle.

The definitions mirror the TypeScript source:
* `DialQueue.dial` / `DialQueue.calculateMultiaddrs` / `DialQueue.performDial`
  from the dialler module,
* `DefaultIdentifyService.identify` / `consumeIdentifyMessage` from
  `identify/identify.ts`,
* `AddressManager` operations from `address-manager/index.ts`,
* `bytesToPeer` from `peer-store/src/utils/bytes-to-peer.ts`,
* `Libp2pNode.start` / `Libp2pNode.stop` from `libp2p.ts`.

External collaborators (transports, the connection gater, multiaddr
resolvers, the crypto of signed envelopes) are modelled as parameters, as
in the source they are injected components.
-/

namespace Libp2p

/-! ### Multiaddrs

A multiaddr is modelled as its parsed component list.  Each component has a
protocol name, a value and the protocol table's `path` flag (as returned by
`protos()` in the source).  String rendering `/name/value/name/value/...`
mirrors `Multiaddr.toString`. -/

structure MaComp where
  name : String
  value : String
  isPath : Bool
deriving DecidableEq, Repr

structure Multiaddr where
  comps : List MaComp
deriving DecidableEq, Repr

/-- `Multiaddr.toString`: the canonical string form. -/
def Multiaddr.render (m : Multiaddr) : String :=
  m.comps.foldl (fun s c => s ++ "/" ++ c.name ++ "/" ++ c.value) ""

/-- `Multiaddr.getPeerId`: the value of the last `p2p` component, if any. -/
def Multiaddr.maPeerId (m : Multiaddr) : Option String :=
  ((m.comps.filter (fun c => c.name == "p2p")).getLast?).map (fun c => c.value)

/-- `multiaddr.protos().pop()?.path === true`: the path flag of the final
protocol component. -/
def Multiaddr.lastIsPath (m : Multiaddr) : Bool :=
  ((m.comps.getLast?).map (fun c => c.isPath)).getD false

/-- `multiaddr.encapsulate('/p2p/<peerId>')`. -/
def Multiaddr.encapP2p (m : Multiaddr) (pid : String) : Multiaddr :=
  ⟨m.comps ++ [⟨"p2p", pid, false⟩]⟩

/-- `multiaddr.decapsulate('/p2p/<peerId>')` for an address that carries the
given peer id: drop everything from the last matching `p2p` component on.
If no component matches, the address is returned unchanged. -/
def Multiaddr.decapP2p (m : Multiaddr) (pid : String) : Multiaddr :=
  match m.comps.reverse.findIdx? (fun c => c.name == "p2p" && c.value == pid) with
  | none => m
  | some j => ⟨m.comps.take (m.comps.length - 1 - j)⟩

/-- Peer ids are compared by byte equality in the source; we model them by
their canonical string form. -/
abbrev PeerId := String

/-- An address-book entry: a multiaddr plus its certification flag. -/
structure Address where
  multiaddr : Multiaddr
  isCertified : Bool
deriving DecidableEq, Repr

/-! ### Dial queue (`DialQueue` from the dialler module) -/

/-- Errors thrown by `DialQueue.dial` and `calculateMultiaddrs`, by their
stable code. -/
inductive DialError where
  | dialedSelf
  | peerDialIntercepted
  | noValidAddresses
  | tooManyAddresses
deriving DecidableEq, Repr

/-- The injected collaborators and configuration of a `DialQueue`:
the node's own peer id, the connection gater predicates, the peer store's
address book, the multiaddr resolver, the transport manager's
`transportForMultiaddr` test, the address cap and the address sorter. -/
structure DialConfig where
  self : PeerId
  denyDialPeer : PeerId → Bool
  denyDialMultiaddr : Multiaddr → Bool
  storeAddrs : PeerId → List Address
  resolveMa : Multiaddr → List Multiaddr
  transportFor : Multiaddr → Bool
  maxPeerAddrsToDial : Nat
  addressSorter : Address → Address → Bool

/-- `resolveMultiaddrs` step of `calculateMultiaddrs`: a resolved result that
is exactly the input address keeps its certification flag, anything else is
marked uncertified. -/
def resolveStep (cfg : DialConfig) (addr : Address) : List Address :=
  let result := cfg.resolveMa addr.multiaddr
  match result with
  | [m] => if m = addr.multiaddr then [addr]
           else [⟨m, false⟩]
  | _ => result.map (fun m => ⟨m, false⟩)

/-- OR-merge of the `isCertified` flag of `a` into a stored entry with the
same string form (`existing.isCertified = existing.isCertified || addr.isCertified`). -/
def certMerge (a e : Address) : Address :=
  if e.multiaddr.render == a.multiaddr.render then
    ⟨e.multiaddr, e.isCertified || a.isCertified⟩
  else e

/-- One iteration of the deduplication loop of `calculateMultiaddrs`:
if the map (keyed by string form, in first-insertion order) already holds
this string, OR-merge `isCertified` into the stored entry, else insert. -/
def dedupeStep (acc : List Address) (a : Address) : List Address :=
  if acc.any (fun e => e.multiaddr.render == a.multiaddr.render) then
    acc.map (certMerge a)
  else acc ++ [a]

/-- The deduplication loop of `calculateMultiaddrs` over the whole list. -/
def dedupeAddrs (addrs : List Address) : List Address :=
  addrs.foldl dedupeStep []

/-- The `/p2p/<peerId>` suffix step of `calculateMultiaddrs`: path
multiaddrs and multiaddrs that already carry a peer id are left alone,
otherwise the target's peer id is encapsulated. -/
def appendPeerId (pid : PeerId) (addr : Address) : Address :=
  if addr.multiaddr.lastIsPath then addr
  else if addr.multiaddr.maPeerId = none then
    ⟨addr.multiaddr.encapP2p pid, addr.isCertified⟩
  else addr

/-- Resolution, transport filtering and deduplication — the middle of
`calculateMultiaddrs`. -/
def dedupedOf (cfg : DialConfig) (base : List Address) : List Address :=
  dedupeAddrs
    (((base.map (resolveStep cfg)).flatten).filter (fun a => cfg.transportFor a.multiaddr))

/-- Peer-id suffixing, multiaddr gating and sorting — the tail of
`calculateMultiaddrs`. -/
def gateAndSort (cfg : DialConfig) (peerId? : Option PeerId)
    (dedupedMultiaddrs : List Address) : List Address :=
  let appended :=
    match peerId? with
    | some pid => dedupedMultiaddrs.map (appendPeerId pid)
    | none => dedupedMultiaddrs
  let gatedAdrs := appended.filter (fun a => !cfg.denyDialMultiaddr a.multiaddr)
  gatedAdrs.insertionSort (fun a b => cfg.addressSorter a b = true)

/-- `DialQueue.calculateMultiaddrs`: self-dial and gater checks, address-book
lookup, resolution, transport filtering, dedup, bounds checks, peer-id
suffixing, multiaddr gating and sorting, in source order. -/
def DialQueue.calculateMultiaddrs (cfg : DialConfig) (peerId? : Option PeerId)
    (addrs : List Address) : Except DialError (List Address) := do
  let addrs ← (do
    match peerId? with
    | some pid =>
        if cfg.self = pid then
          throw DialError.dialedSelf
        else if cfg.denyDialPeer pid then
          throw DialError.peerDialIntercepted
        else if addrs.length = 0 then
          pure (cfg.storeAddrs pid)
        else
          pure addrs
    | none => pure addrs)
  let dedupedMultiaddrs := dedupedOf cfg addrs
  if dedupedMultiaddrs.length = 0 then
    throw DialError.noValidAddresses
  else if dedupedMultiaddrs.length > cfg.maxPeerAddrsToDial then
    throw DialError.tooManyAddresses
  else
    pure (gateAndSort cfg peerId? dedupedMultiaddrs)

/-- A `PendingDial` entry: id, optional peer id and the resolved multiaddr
list (the promise is identified by the entry's id). -/
structure PendingDial where
  id : Nat
  peerId : Option PeerId
  multiaddrs : List Multiaddr
deriving DecidableEq, Repr

/-- `addrs.map(a => a.toString()).join()`. -/
def joinRender (mas : List Multiaddr) : String :=
  String.intercalate "," (mas.map Multiaddr.render)

/-- The predicate of `this.pendingDials.find(...)` in `DialQueue.dial`:
an in-flight dial matches when both peer ids are present and equal, or when
the two multiaddr lists have the same joined string form. -/
def dialMatches (peerId? : Option PeerId) (addrsToDial : List Address)
    (dial : PendingDial) : Bool :=
  (match dial.peerId, peerId? with
   | some dp, some p => dp == p
   | _, _ => false)
  || joinRender (addrsToDial.map (fun a => a.multiaddr)) == joinRender dial.multiaddrs

/-- The observable outcome of one `DialQueue.dial` invocation:
it either rejected during address calculation, joined an existing pending
dial (returning that dial's promise) or created a new pending dial. -/
inductive DialOutcome where
  | failed (e : DialError)
  | joined (existingId : Nat)
  | created (newId : Nat)
deriving DecidableEq, Repr

/-- `DialQueue.dial` up to the point the pending-dial promise is returned:
calculate the address list, dedup against in-flight pending dials, and
either join the match or append a fresh `PendingDial`. -/
def DialQueue.dial (cfg : DialConfig) (pendingDials : List PendingDial)
    (newId : Nat) (peerId? : Option PeerId) (multiaddrs : List Multiaddr) :
    List PendingDial × DialOutcome :=
  match DialQueue.calculateMultiaddrs cfg peerId?
      (multiaddrs.map (fun m => ⟨m, false⟩)) with
  | .error e => (pendingDials, .failed e)
  | .ok addrsToDial =>
    match pendingDials.find? (dialMatches peerId? addrsToDial) with
    | some existingDial => (pendingDials, .joined existingDial.id)
    | none =>
        (pendingDials ++ [⟨newId, peerId?, addrsToDial.map (fun a => a.multiaddr)⟩],
         .created newId)

/-! ### `performDial` failure surface (`DialQueue.performDial` and the
`catch` in `DialQueue.dial`) -/

/-- JavaScript errors as observed by the dial code: either an
`AggregateError` (as produced by `Promise.any` when every candidate
rejects) or an error carrying a stable code and message. -/
inductive JsError where
  | aggregate (errors : List JsError)
  | code (c : String) (message : String)
deriving Repr

/-- `err.message`; an `AggregateError` carries the standard message. -/
def JsError.msg : JsError → String
  | .aggregate _ => "All promises were rejected"
  | .code _ m => m

/-- The rejection reason of a settled attempt (only consulted when the
attempt rejected). -/
def errOf (e : Except JsError Nat) : JsError :=
  match e with
  | .error err => err
  | .ok _ => .code "" ""

/-- `DialQueue.performDial`: race the candidate addresses (`Promise.any`
semantics: first fulfilled attempt wins, otherwise an `AggregateError` of
every rejection) and, in the `catch`, unwrap the `AggregateError` when only
one address was dialled. -/
def DialQueue.performDial (multiaddrs : List Multiaddr)
    (attempt : Multiaddr → Except JsError Nat) : Except JsError Nat :=
  let raced : Except JsError Nat :=
    match multiaddrs.findSome? (fun a => (attempt a).toOption) with
    | some conn => .ok conn
    | none => .error (.aggregate (multiaddrs.map (fun a => errOf (attempt a))))
  match raced with
  | .ok conn => .ok conn
  | .error err =>
      if multiaddrs.length = 1 then
        match err with
        | .aggregate (e :: _) => .error e
        | _ => .error err
      else .error err

/-- The `catch` in `DialQueue.dial`: when the dial timeout signal has
fired, the rejection is re-thrown as a `CodeError` with code `ERR_TIMEOUT`
and the original message. -/
def wrapTimeout (timeoutFired : Bool) (err : JsError) : JsError :=
  if timeoutFired then .code "ERR_TIMEOUT" err.msg else err

/-- The settled result of a pending dial's promise: `performDial` composed
with the timeout re-wrap of `DialQueue.dial`. -/
def dialRejection (multiaddrs : List Multiaddr)
    (attempt : Multiaddr → Except JsError Nat) (timeoutFired : Bool) :
    Except JsError Nat :=
  match DialQueue.performDial multiaddrs attempt with
  | .ok conn => .ok conn
  | .error err => .error (wrapTimeout timeoutFired err)

/-! ### Sequences of dial invocations -/

/-- One `dial` invocation: the fresh pending-dial id it would use and the
target already resolved by `getPeerAddress`. -/
structure DialInvocation where
  newId : Nat
  peerId : Option PeerId
  multiaddrs : List Multiaddr
deriving DecidableEq, Repr

/-- Run dial invocations in sequence against the queue state.  Concurrent
invocations that all start before any resolves interleave exactly like
this: the dedup check and the push onto `pendingDials` are synchronous
(no `await` separates them), and no `finally` has yet removed an entry. -/
def dialSequence (cfg : DialConfig) :
    List DialInvocation → List PendingDial → List PendingDial × List DialOutcome
  | [], st => (st, [])
  | inv :: rest, st =>
      let step := DialQueue.dial cfg st inv.newId inv.peerId inv.multiaddrs
      let next := dialSequence cfg rest step.1
      (next.1, step.2 :: next.2)

/-! ### Identify service (`DefaultIdentifyService` from `identify/identify.ts`) -/

/-- The payload of a signed peer record: peer id, sequence number and
addresses (`PeerRecord.createFromProtobuf`). -/
structure PeerRecordData where
  peerId : PeerId
  seqNumber : Nat
  multiaddrs : List Multiaddr
deriving DecidableEq, Repr

/-- A record envelope: the signer's peer id, the embedded peer record, and
whether its signature verifies (the crypto is a collaborator; only the
verification outcome matters to the control flow). -/
structure SignedEnvelope where
  signer : PeerId
  record : PeerRecordData
  sigValid : Bool
deriving DecidableEq, Repr

/-- `RecordEnvelope.openAndCertify`: yields the envelope when the
signature verifies, throws otherwise. -/
def openAndCertify (env : SignedEnvelope) : Except String SignedEnvelope :=
  if env.sigValid then .ok env else .error "invalid signature"

/-- The decoded `Identify` protobuf message. -/
structure IdentifyMessage where
  publicKey : Option String
  protocolVersion : Option String
  agentVersion : Option String
  listenAddrs : List Multiaddr
  observedAddr : Option Multiaddr
  protocols : List String
  signedPeerRecord : Option SignedEnvelope
deriving DecidableEq, Repr

/-- The slice of a Peer Store entry read and written by the identify
service. -/
structure StoredPeer where
  addresses : List Address
  protocols : List String
  metadata : List (String × String)
  peerRecordEnvelope : Option SignedEnvelope
deriving DecidableEq, Repr

/-- `Map.set`: replace in place, preserving insertion order, or append. -/
def mapSet {β : Type} (m : List (String × β)) (k : String) (v : β) :
    List (String × β) :=
  if m.any (fun kv => kv.1 == k) then
    m.map (fun kv => if kv.1 == k then (k, v) else kv)
  else m ++ [(k, v)]

/-- The `AgentVersion` / `ProtocolVersion` metadata updates at the end of
`#consumeIdentifyMessage`. -/
def setVersionMeta (m : List (String × String)) (msg : IdentifyMessage) :
    List (String × String) :=
  let m1 := match msg.agentVersion with
    | some v => mapSet m "AgentVersion" v
    | none => m
  match msg.protocolVersion with
  | some v => mapSet m1 "ProtocolVersion" v
  | none => m1

/-- `DefaultIdentifyService.#consumeIdentifyMessage`: build the peer patch
from the message; when a signed peer record is present, verify it, check
the signer against the embedded and remote peer ids, keep the stored
record when its sequence number is greater than or equal to the incoming
one, and mark the winner's addresses as certified.  Returns the patch
written to the Peer Store and the `SignedPeerRecord` output (the winner's
sequence number and addresses). -/
def consumeIdentifyMessage (remotePeer : PeerId) (existing : Option StoredPeer)
    (msg : IdentifyMessage) :
    Except String (StoredPeer × Option (Nat × List Multiaddr)) :=
  match msg.signedPeerRecord with
  | none =>
      .ok ({ addresses := msg.listenAddrs.map (fun m => ⟨m, false⟩)
             protocols := msg.protocols
             metadata := setVersionMeta [] msg
             peerRecordEnvelope := none }, none)
  | some env =>
      match openAndCertify env with
      | .error e => .error e
      | .ok envelope =>
          if envelope.record.peerId ≠ envelope.signer then
            .error "signing key does not match PeerId in the PeerRecord"
          else if remotePeer ≠ envelope.record.peerId then
            .error "signing key does not match remote PeerId"
          else
            let winner :=
              match existing with
              | some ex =>
                  match ex.peerRecordEnvelope with
                  | some storedEnv =>
                      if storedEnv.record.seqNumber ≥ envelope.record.seqNumber then
                        storedEnv
                      else envelope
                  | none => envelope
              | none => envelope
            let baseMeta :=
              match existing with
              | some ex => ex.metadata
              | none => []
            .ok ({ addresses := winner.record.multiaddrs.map (fun m => ⟨m, true⟩)
                   protocols := msg.protocols
                   metadata := setVersionMeta baseMeta msg
                   peerRecordEnvelope := some winner },
                 some (winner.record.seqNumber, winner.record.multiaddrs))

/-- Apply one identify message to the store state for a peer: on success
the patch replaces the entry, on a thrown error the store is untouched. -/
def stepStore (remotePeer : PeerId) (st : Option StoredPeer)
    (msg : IdentifyMessage) : Option StoredPeer :=
  match consumeIdentifyMessage remotePeer st msg with
  | .ok (p, _) => some p
  | .error _ => st

/-- A sequence of identify messages received in order from a peer. -/
def consumeTrace (remotePeer : PeerId) (st : Option StoredPeer)
    (msgs : List IdentifyMessage) : Option StoredPeer :=
  msgs.foldl (stepStore remotePeer) st

/-- The sequence number of the signed record currently stored for the
peer, if any. -/
def storedSeq (st : Option StoredPeer) : Option Nat :=
  match st with
  | some p => p.peerRecordEnvelope.map (fun e => e.record.seqNumber)
  | none => none

/-- Failures of `DefaultIdentifyService.identify`, with their stable
codes.  `consumeFailed` stands for the plain (code-less) errors thrown by
`#consumeIdentifyMessage`. -/
inductive IdentifyFailure where
  | missingPublicKey
  | invalidPeer
  | consumeFailed (e : String)
deriving DecidableEq, Repr

/-- The stable error code carried by each failure. -/
def IdentifyFailure.code : IdentifyFailure → String
  | .missingPublicKey => "ERR_MISSING_PUBLIC_KEY"
  | .invalidPeer => "ERR_INVALID_PEER"
  | .consumeFailed _ => ""

/-- The `peer:identify` event payload (the fields the claims mention). -/
structure IdentifyResultModel where
  peerId : PeerId
  protocols : List String
deriving DecidableEq, Repr

/-- `DefaultIdentifyService.identify` after the message has been read:
require a public key, derive the peer id from it (`peerIdFromKeys`,
injected as `derivePeerId`), require it to equal the connection's remote
peer and to differ from self, then consume the message.  The observed
address handling sits between validation and consumption and only touches
the Address Manager, modelled separately.  Returns the peer-store patch
and the `peer:identify` payload. -/
def identifyStep (derivePeerId : String → PeerId) (self remotePeer : PeerId)
    (existing : Option StoredPeer) (msg : IdentifyMessage) :
    Except IdentifyFailure (StoredPeer × IdentifyResultModel) :=
  match msg.publicKey with
  | none => .error .missingPublicKey
  | some pk =>
      if remotePeer ≠ derivePeerId pk then .error .invalidPeer
      else if self = derivePeerId pk then .error .invalidPeer
      else
        match consumeIdentifyMessage remotePeer existing msg with
        | .error e => .error (.consumeFailed e)
        | .ok (p, _) =>
            .ok (p, { peerId := derivePeerId pk, protocols := msg.protocols })

/-- The observable effect of one identify run on the Peer Store and the
`peer:identify` event stream: on failure neither the store is written nor
the event dispatched. -/
def identifyEffect (derivePeerId : String → PeerId) (self remotePeer : PeerId)
    (store : PeerId → Option StoredPeer) (msg : IdentifyMessage) :
    (PeerId → Option StoredPeer) × List IdentifyResultModel :=
  match identifyStep derivePeerId self remotePeer (store remotePeer) msg with
  | .ok (p, r) => (fun q => if q = remotePeer then some p else store q, [r])
  | .error _ => (store, [])

/-- The state of a connection as far as the identify claims observe it. -/
structure ConnState where
  aborted : Bool
deriving DecidableEq, Repr

/-- The `connection:open` listener installed by the identify service
constructor: `this.identify(connection).catch(err => log.error(...))` —
every identify failure is caught and logged; nothing closes or aborts the
connection. -/
def onConnectionOpenIdentify (derivePeerId : String → PeerId)
    (self remotePeer : PeerId) (store : PeerId → Option StoredPeer)
    (msg : IdentifyMessage) (conn : ConnState) :
    ConnState × Option IdentifyFailure :=
  match identifyStep derivePeerId self remotePeer (store remotePeer) msg with
  | .ok _ => (conn, none)
  | .error e => (conn, some e)

/-! ### Address manager (`AddressManager` from `address-manager/index.ts`) -/

/-- `stripPeerId`: remove our own peer id from the multiaddr when it
carries it. -/
def stripPeerId (ma : Multiaddr) (peerId : PeerId) : Multiaddr :=
  match ma.maPeerId with
  | some observedPeerId =>
      if observedPeerId = peerId then ma.decapP2p peerId else ma
  | none => ma

/-- The mutable state of the Address Manager: the configured announce
addresses and the observed map (address, in insertion order, with its
confidence flag). -/
structure AMState where
  announce : List Multiaddr
  observed : List (Multiaddr × Bool)
deriving DecidableEq, Repr

/-- `this.observed.set(addrString, {confident})`: update in place or
append. -/
def obsSet (obs : List (Multiaddr × Bool)) (m : Multiaddr) (v : Bool) :
    List (Multiaddr × Bool) :=
  if obs.any (fun e => e.1.render == m.render) then
    obs.map (fun e => if e.1.render == m.render then (e.1, v) else e)
  else obs ++ [(m, v)]

/-- `AddressManager.addObservedAddr`: strip our peer id, and insert with
`confident = false` unless the address is already known. -/
def addObservedAddr (self : PeerId) (st : AMState) (addr : Multiaddr) : AMState :=
  let addr2 := stripPeerId addr self
  if st.observed.any (fun e => e.1.render == addr2.render) then st
  else { st with observed := st.observed ++ [(addr2, false)] }

/-- `AddressManager.confirmObservedAddr`: strip our peer id and set the
confidence flag (the debounced `self:peer:update` emission is a separate
side effect the claims do not observe). -/
def confirmObservedAddr (self : PeerId) (st : AMState) (addr : Multiaddr) : AMState :=
  let addr2 := stripPeerId addr self
  { st with observed := obsSet st.observed addr2 true }

/-- One component rewrite of the DNS-mapping loop: an `ip4`/`ip6`
component whose value equals the mapped ip becomes `dns4`/`dns6` with the
domain. -/
def mapTuple (c : MaComp) (kv : String × String) : MaComp × Bool :=
  if c.value == kv.1 then
    if c.name == "ip4" then (⟨"dns4", kv.2, c.isPath⟩, true)
    else if c.name == "ip6" then (⟨"dns6", kv.2, c.isPath⟩, true)
    else (c, false)
  else (c, false)

/-- The DNS-mapping loop of `getAddresses` over one multiaddr: apply every
configured ip-to-domain mapping and report whether anything was mapped. -/
def applyMappings (mappings : List (String × String)) (m : Multiaddr) :
    Multiaddr × Bool :=
  mappings.foldl (fun acc kv =>
    (⟨acc.1.comps.map (fun c => (mapTuple c kv).1)⟩,
      acc.2 || acc.1.comps.any (fun c => (mapTuple c kv).2))) (m, false)

/-- The final per-address rewrite of `getAddresses`: leave path multiaddrs
and multiaddrs already carrying our peer id alone, append `/p2p/<selfId>`
to the rest. -/
def advertiseForm (self : PeerId) (ma : Multiaddr) : Multiaddr :=
  if ma.lastIsPath then ma
  else if ma.maPeerId = some self then ma
  else ma.encapP2p self

/-- One insertion into the string-keyed `addrSet` of `getAddresses`. -/
def dedupeRStep (acc : List Multiaddr) (ma : Multiaddr) : List Multiaddr :=
  if acc.any (fun e => e.render == ma.render) then acc else acc ++ [ma]

/-- String-form deduplication keeping first occurrences (the `addrSet`
stage of `getAddresses`). -/
def dedupeByRender (l : List Multiaddr) : List Multiaddr :=
  l.foldl dedupeRStep []

/-- `AddressManager.getAddresses`: announce addresses if configured, else
the transport-listen addresses; plus the confident observed addresses;
plus the DNS-mapped rewrites; deduplicated by string form; `/p2p/<selfId>`
appended to non-path entries; passed through the announce filter. -/
def AddressManager.getAddresses (self : PeerId) (transportAddrs : List Multiaddr)
    (ipDomainMappings : List (String × String))
    (announceFilter : List Multiaddr → List Multiaddr) (st : AMState) :
    List Multiaddr :=
  let multiaddrs0 := if st.announce.length = 0 then transportAddrs else st.announce
  let multiaddrs1 :=
    multiaddrs0 ++ (st.observed.filter (fun e => e.2)).map (fun e => e.1)
  let mappedMultiaddrs :=
    ((multiaddrs1.map (applyMappings ipDomainMappings)).filter
      (fun r => r.2)).map (fun r => r.1)
  let multiaddrs2 := multiaddrs1 ++ mappedMultiaddrs
  announceFilter ((dedupeByRender multiaddrs2).map (advertiseForm self))

/-- Observed-address operations invoked on the Address Manager (the
identify service calls `addObservedAddr`; confirmation arrives from
transports or protocols that verified the address). -/
inductive ObsEvent where
  | add (a : Multiaddr)
  | confirm (a : Multiaddr)
deriving DecidableEq, Repr

/-- The address an observed-address event carries. -/
def ObsEvent.addr : ObsEvent → Multiaddr
  | .add a => a
  | .confirm a => a

/-- Apply one observed-address event to the Address Manager state. -/
def applyObsEvent (self : PeerId) (st : AMState) : ObsEvent → AMState
  | .add a => addObservedAddr self st a
  | .confirm a => confirmObservedAddr self st a

/-- Run a sequence of observed-address events. -/
def runObsEvents (self : PeerId) (st : AMState) (events : List ObsEvent) : AMState :=
  events.foldl (applyObsEvent self) st

/-- A multiaddr with no peer-id component anywhere (so `stripPeerId` is
the identity on it). -/
def noP2p (m : Multiaddr) : Prop :=
  ∀ c ∈ m.comps, ¬ c.name = "p2p"

instance (m : Multiaddr) : Decidable (noP2p m) := by
  unfold noP2p
  infer_instance

/-! ### Peer store reads (`bytesToPeer` from
`peer-store/src/utils/bytes-to-peer.ts`) -/

/-- A tag as stored on disk: a value and an optional absolute expiry. -/
structure TagValue where
  value : Nat
  expiry : Option Nat
deriving DecidableEq, Repr

/-- A decoded address of the on-disk peer protobuf. -/
structure AddressPB where
  multiaddr : Multiaddr
  isCertified : Option Bool
  lastFailure : Option Nat
  lastSuccess : Option Nat
deriving DecidableEq, Repr

/-- The on-disk peer protobuf (`PeerPB.decode(buf)`). -/
structure PeerPB where
  addresses : List AddressPB
  protocols : List String
  metadata : List (String × String)
  tags : List (String × TagValue)
  publicKey : Option String
  peerRecordEnvelope : Option String
deriving DecidableEq, Repr

/-- An in-memory address as returned by `bytesToPeer`. -/
structure AddressOut where
  multiaddr : Multiaddr
  isCertified : Bool
  lastFailure : Option Nat
  lastSuccess : Option Nat
deriving DecidableEq, Repr

/-- An in-memory peer entry as returned by `bytesToPeer`. -/
structure PeerEntry where
  addresses : List AddressOut
  protocols : List String
  metadata : List (String × String)
  tags : List (String × TagValue)
  peerRecordEnvelope : Option String
deriving DecidableEq, Repr

/-- `bytesToPeer`: decode the stored entry, dropping every tag whose
expiry lies before `now` (`tag.expiry != null && tag.expiry < now`), and
convert the addresses. -/
def bytesToPeer (peer : PeerPB) (now : Nat) : PeerEntry :=
  let tags := peer.tags.foldl (fun acc kv =>
    match kv.2.expiry with
    | some e => if e < now then acc else mapSet acc kv.1 kv.2
    | none => mapSet acc kv.1 kv.2) []
  { addresses := peer.addresses.map (fun a =>
      { multiaddr := a.multiaddr
        isCertified := a.isCertified == some true
        lastFailure := a.lastFailure
        lastSuccess := a.lastSuccess })
    protocols := peer.protocols
    metadata := peer.metadata
    tags := tags
    peerRecordEnvelope := peer.peerRecordEnvelope }

/-! ### Node lifecycle (`Libp2pNode.start` / `Libp2pNode.stop` from
`libp2p.ts`) -/

/-- The node's lifecycle state. -/
structure NodeState where
  started : Bool
deriving DecidableEq, Repr

/-- The start hooks run over the service list, stage by stage
(`beforeStart`, `start`, `afterStart`). -/
def startHooks (services : List String) : List String :=
  services.map (fun s => s ++ ":beforeStart") ++
    services.map (fun s => s ++ ":start") ++
    services.map (fun s => s ++ ":afterStart")

/-- The stop hooks run over the service list, stage by stage
(`beforeStop`, `stop`, `afterStop`). -/
def stopHooks (services : List String) : List String :=
  services.map (fun s => s ++ ":beforeStop") ++
    services.map (fun s => s ++ ":stop") ++
    services.map (fun s => s ++ ":afterStop")

/-- `Libp2pNode.start`: return immediately when already started, else
flip the flag and run every service's start hooks.  The returned list is
the trace of hooks run by this call. -/
def Libp2pNode.start (services : List String) (st : NodeState) :
    NodeState × List String :=
  if st.started then (st, [])
  else (⟨true⟩, startHooks services)

/-- `Libp2pNode.stop`: return immediately when not started, else flip the
flag and run every service's stop hooks. -/
def Libp2pNode.stop (services : List String) (st : NodeState) :
    NodeState × List String :=
  if !st.started then (st, [])
  else (⟨false⟩, stopHooks services)

/-! ### Concrete fixtures used by the witnesses -/

/-- A sample tcp multiaddr without a peer id. -/
def maTcp : Multiaddr := ⟨[⟨"ip4", "1.2.3.4", false⟩, ⟨"tcp", "4001", false⟩]⟩

/-- The same transport address already carrying the target's peer id. -/
def maTcpWithPeer : Multiaddr := ⟨maTcp.comps ++ [⟨"p2p", "QmTarget", false⟩]⟩

/-- A low-sequence-number signed record for the sample remote peer. -/
def envLow : SignedEnvelope := ⟨"QmRemote", ⟨"QmRemote", 1, [maTcp]⟩, true⟩

/-- A high-sequence-number signed record for the sample remote peer. -/
def envHigh : SignedEnvelope := ⟨"QmRemote", ⟨"QmRemote", 5, [maTcpWithPeer]⟩, true⟩

/-- An identify message from the sample remote peer carrying the given
signed record. -/
def msgWithRecord (env : SignedEnvelope) : IdentifyMessage :=
  { publicKey := some "QmRemote", protocolVersion := none, agentVersion := none
    listenAddrs := [], observedAddr := none, protocols := []
    signedPeerRecord := some env }

/-- A stored peer entry holding the high-sequence-number record. -/
def storedHigh : StoredPeer := ⟨[⟨maTcpWithPeer, true⟩], [], [], some envHigh⟩

/-- An identify message with no public key. -/
def msgNoKey : IdentifyMessage :=
  { publicKey := none, protocolVersion := none, agentVersion := none
    listenAddrs := [], observedAddr := none, protocols := []
    signedPeerRecord := none }

/-- An identify message whose public key derives a peer id different from
the sample connection's remote peer. -/
def msgMismatch : IdentifyMessage :=
  { publicKey := some "QmOther", protocolVersion := none, agentVersion := none
    listenAddrs := [], observedAddr := none, protocols := []
    signedPeerRecord := none }

/-- A sample observed address, distinct from the transport addresses. -/
def maObs : Multiaddr := ⟨[⟨"ip4", "9.9.9.9", false⟩, ⟨"tcp", "4001", false⟩]⟩

/-- A permissive dial configuration whose address book knows `maTcp` for
every peer. -/
def cfgSample : DialConfig :=
  { self := "QmSelf"
    denyDialPeer := fun _ => false
    denyDialMultiaddr := fun _ => false
    storeAddrs := fun _ => [⟨maTcp, false⟩]
    resolveMa := fun m => [m]
    transportFor := fun _ => true
    maxPeerAddrsToDial := 25
    addressSorter := fun _ _ => true }

end Libp2p

namespace Libp2p

/-! ## Theorems -/

/-! ### Dial queue -/

lemma exists_ok_of_isOk {ε α : Type} (e : Except ε α) (h : e.isOk = true) :
    ∃ a, e = .ok a := by
  cases e with
  | error x => simp [Except.isOk, Except.toBool] at h
  | ok a => exact ⟨a, rfl⟩

lemma toOption_eq_none_of_isOk_false {ε α : Type} (e : Except ε α)
    (h : e.isOk = false) : e.toOption = none := by
  cases e with
  | error x => rfl
  | ok a => simp [Except.isOk, Except.toBool] at h

/-- Joining: a `dial` invocation for peer `p` made while the head of
`pendingDials` is an in-flight dial for `p` returns that dial's promise and
leaves the pending list unchanged. -/
lemma dial_joins_head (cfg : DialConfig) (d : PendingDial)
    (rest : List PendingDial) (p : PeerId) (newId : Nat)
    (mas : List Multiaddr) (hd : d.peerId = some p)
    (hok : (DialQueue.calculateMultiaddrs cfg (some p)
      (mas.map (fun m => ⟨m, false⟩))).isOk = true) :
    DialQueue.dial cfg (d :: rest) newId (some p) mas =
      (d :: rest, .joined d.id) := by
  obtain ⟨addrs, hcalc⟩ := exists_ok_of_isOk _ hok
  have hmatch : dialMatches (some p) addrs d = true := by
    unfold dialMatches
    rw [hd]
    simp
  unfold DialQueue.dial
  rw [hcalc]
  simp [List.find?, hmatch]

/-- Every invocation of a sequence that targets peer `p` joins the single
in-flight dial for `p`. -/
lemma dialSequence_joins (cfg : DialConfig) (p : PeerId) (d : PendingDial)
    (hd : d.peerId = some p) :
    ∀ invs : List DialInvocation,
      (∀ inv ∈ invs, inv.peerId = some p) →
      (∀ inv ∈ invs, (DialQueue.calculateMultiaddrs cfg (some p)
        (inv.multiaddrs.map (fun m => ⟨m, false⟩))).isOk = true) →
      dialSequence cfg invs [d] = ([d], invs.map (fun _ => .joined d.id))
  | [], _, _ => rfl
  | inv :: rest, h1, h2 => by
      have hpid : inv.peerId = some p := h1 inv (by simp)
      have hstep : DialQueue.dial cfg [d] inv.newId inv.peerId inv.multiaddrs =
          ([d], .joined d.id) := by
        rw [hpid]
        exact dial_joins_head cfg d [] p inv.newId inv.multiaddrs hd
          (h2 inv (by simp))
      have hrest := dialSequence_joins cfg p d hd rest
        (fun i hi => h1 i (by simp [hi])) (fun i hi => h2 i (by simp [hi]))
      simp [dialSequence, hstep, hrest]

/-- C1: concurrent `dial(P)` invocations started before any resolves share
exactly one Pending Dial: the first invocation creates it and every later
one joins it (returning the same promise, hence the same connection or
error), and the dedup predicate matches on equal peer ids when both are
present, or on the exact (joined string form of the) multiaddr list. -/
theorem dial_concurrent_dedup (cfg : DialConfig) (p : PeerId)
    (first : DialInvocation) (rest : List DialInvocation)
    (h1 : ∀ inv ∈ first :: rest, inv.peerId = some p)
    (h2 : ∀ inv ∈ first :: rest, (DialQueue.calculateMultiaddrs cfg (some p)
      (inv.multiaddrs.map (fun m => ⟨m, false⟩))).isOk = true) :
    ((dialSequence cfg (first :: rest) []).1.length = 1 ∧
      (∀ d ∈ (dialSequence cfg (first :: rest) []).1,
        d.peerId = some p ∧ d.id = first.newId) ∧
      (dialSequence cfg (first :: rest) []).2 =
        .created first.newId :: rest.map (fun _ => .joined first.newId)) ∧
    (∀ (pid : PeerId) (addrs : List Address) (d : PendingDial),
      dialMatches (some pid) addrs d =
        ((d.peerId == some pid) ||
          joinRender (addrs.map (fun a => a.multiaddr)) == joinRender d.multiaddrs)) ∧
    (∀ (addrs : List Address) (d : PendingDial),
      dialMatches none addrs d =
        (joinRender (addrs.map (fun a => a.multiaddr)) == joinRender d.multiaddrs)) := by
  obtain ⟨addrs₀, hcalc₀⟩ := exists_ok_of_isOk _ (h2 first (by simp))
  have hfirstPid := h1 first (by simp)
  have hstep : DialQueue.dial cfg [] first.newId first.peerId first.multiaddrs =
      ([⟨first.newId, some p, addrs₀.map (fun a => a.multiaddr)⟩],
        .created first.newId) := by
    rw [hfirstPid]
    unfold DialQueue.dial
    rw [hcalc₀]
    simp [List.find?]
  have hrest := dialSequence_joins cfg p
    ⟨first.newId, some p, addrs₀.map (fun a => a.multiaddr)⟩ rfl rest
    (fun i hi => h1 i (by simp [hi])) (fun i hi => h2 i (by simp [hi]))
  refine ⟨?_, ?_, ?_⟩
  · simp [dialSequence, hstep, hrest]
  · intro pid addrs d
    unfold dialMatches
    cases hdp : d.peerId with
    | none => simp
    | some dp => simp
  · intro addrs d
    unfold dialMatches
    cases hdp : d.peerId with
    | none => simp
    | some dp => simp

/-- Witness for C1 at a concrete input: two invocations for the same peer,
the second joining the first one's pending dial. -/
theorem dial_concurrent_dedup_witness :
    ((∀ inv ∈ [(⟨1, some "QmTarget", []⟩ : DialInvocation), ⟨2, some "QmTarget", []⟩],
        inv.peerId = some "QmTarget") ∧
      (∀ inv ∈ [(⟨1, some "QmTarget", []⟩ : DialInvocation), ⟨2, some "QmTarget", []⟩],
        (DialQueue.calculateMultiaddrs cfgSample (some "QmTarget")
          (inv.multiaddrs.map (fun m => ⟨m, false⟩))).isOk = true)) ∧
    ((dialSequence cfgSample
        [(⟨1, some "QmTarget", []⟩ : DialInvocation), ⟨2, some "QmTarget", []⟩] []).1.length = 1 ∧
      (∀ d ∈ (dialSequence cfgSample
          [(⟨1, some "QmTarget", []⟩ : DialInvocation), ⟨2, some "QmTarget", []⟩] []).1,
        d.peerId = some "QmTarget" ∧ d.id = 1) ∧
      (dialSequence cfgSample
          [(⟨1, some "QmTarget", []⟩ : DialInvocation), ⟨2, some "QmTarget", []⟩] []).2 =
        .created 1 :: [(⟨2, some "QmTarget", []⟩ : DialInvocation)].map (fun _ => .joined 1)) :=
  ⟨⟨by decide, by decide⟩,
    (dial_concurrent_dedup cfgSample "QmTarget" ⟨1, some "QmTarget", []⟩
      [⟨2, some "QmTarget", []⟩] (by decide) (by decide)).1⟩

/-- C5: dialling the node's own peer id rejects with `ErrDialedSelf` and
leaves the pending-dials list untouched — no Pending Dial is ever added. -/
theorem dial_self_rejected (cfg : DialConfig) (st : List PendingDial)
    (newId : Nat) (mas : List Multiaddr) :
    DialQueue.dial cfg st newId (some cfg.self) mas = (st, .failed .dialedSelf) := by
  simp [DialQueue.dial, DialQueue.calculateMultiaddrs, Bind.bind, Except.bind,
    throw, throwThe, MonadExceptOf.throw]

/-- C6: when every candidate address fails, a single-address dial rejects
with that address's own (unwrapped) error, a multi-address dial rejects
with the aggregate of the sibling errors, and if the dial timeout fired
the rejection carries code `ERR_TIMEOUT`. -/
theorem dial_all_fail_error (mas : List Multiaddr)
    (attempt : Multiaddr → Except JsError Nat) (timeoutFired : Bool)
    (hfail : ∀ a ∈ mas, (attempt a).isOk = false) :
    (∀ a, mas = [a] → dialRejection mas attempt false = .error (errOf (attempt a))) ∧
    (1 < mas.length → dialRejection mas attempt false =
      .error (.aggregate (mas.map (fun a => errOf (attempt a))))) ∧
    (mas ≠ [] → timeoutFired = true →
      ∃ m, dialRejection mas attempt timeoutFired = .error (.code "ERR_TIMEOUT" m)) := by
  have hnone : List.findSome? (fun a => (attempt a).toOption) mas = none := by
    rw [List.findSome?_eq_none_iff]
    intro a ha
    exact toOption_eq_none_of_isOk_false _ (hfail a ha)
  have hperf : ∃ e, DialQueue.performDial mas attempt = .error e := by
    unfold DialQueue.performDial
    rw [hnone]
    by_cases h1 : mas.length = 1
    · simp only [h1, if_true]
      cases hm : mas.map (fun a => errOf (attempt a)) with
      | nil => exact ⟨_, rfl⟩
      | cons e es => exact ⟨e, rfl⟩
    · simp only [h1, if_false]
      exact ⟨_, rfl⟩
  refine ⟨?_, ?_, ?_⟩
  · rintro a rfl
    have ha : (attempt a).toOption = none :=
      toOption_eq_none_of_isOk_false _ (hfail a (by simp))
    simp [dialRejection, DialQueue.performDial, List.findSome?, ha, wrapTimeout]
  · intro hlen
    have h1 : mas.length ≠ 1 := by omega
    simp [dialRejection, DialQueue.performDial, hnone, h1, wrapTimeout]
  · intro _ ht
    obtain ⟨e, he⟩ := hperf
    exact ⟨e.msg, by simp [dialRejection, he, wrapTimeout, ht]⟩

lemma certMerge_multiaddr (a e : Address) : (certMerge a e).multiaddr = e.multiaddr := by
  unfold certMerge
  by_cases h : e.multiaddr.render == a.multiaddr.render <;> simp [h]

lemma certMerge_of_eq {a e : Address} (h : e.multiaddr.render = a.multiaddr.render) :
    certMerge a e = ⟨e.multiaddr, e.isCertified || a.isCertified⟩ := by
  simp [certMerge, h]

lemma certMerge_of_ne {a e : Address} (h : e.multiaddr.render ≠ a.multiaddr.render) :
    certMerge a e = e := by
  simp [certMerge, h]

/-- Invariant of the deduplication fold: the accumulator has pairwise
distinct string forms, its certification flags are the OR over the
processed input entries with the same string form, and every processed
string form is represented. -/
lemma dedupe_go :
    ∀ (l acc processed : List Address),
      acc.Pairwise (fun a b => a.multiaddr.render ≠ b.multiaddr.render) →
      (∀ e ∈ acc, (e.isCertified = true ↔
        ∃ x ∈ processed, x.multiaddr.render = e.multiaddr.render ∧ x.isCertified = true)) →
      (∀ x ∈ processed, ∃ e ∈ acc, e.multiaddr.render = x.multiaddr.render) →
      ((l.foldl dedupeStep acc).Pairwise
          (fun a b => a.multiaddr.render ≠ b.multiaddr.render) ∧
        (∀ e ∈ l.foldl dedupeStep acc, (e.isCertified = true ↔
          ∃ x ∈ processed ++ l,
            x.multiaddr.render = e.multiaddr.render ∧ x.isCertified = true)) ∧
        (∀ x ∈ processed ++ l, ∃ e ∈ l.foldl dedupeStep acc,
          e.multiaddr.render = x.multiaddr.render))
  | [], acc, processed, h1, h2, h3 => by simpa using ⟨h1, h2, h3⟩
  | a :: l, acc, processed, h1, h2, h3 => by
      have p1 : (dedupeStep acc a).Pairwise
          (fun a b => a.multiaddr.render ≠ b.multiaddr.render) := by
        unfold dedupeStep
        by_cases hany : acc.any (fun e => e.multiaddr.render == a.multiaddr.render)
        · rw [if_pos hany, List.pairwise_map]
          exact h1.imp (fun h => by simpa [certMerge_multiaddr] using h)
        · rw [if_neg hany, List.pairwise_append]
          have hnone : ∀ e ∈ acc, e.multiaddr.render ≠ a.multiaddr.render := by
            simpa using hany
          exact ⟨h1, by simp, fun x hx y hy => by
            simp only [List.mem_singleton] at hy
            subst hy
            exact hnone x hx⟩
      have p2 : ∀ e ∈ dedupeStep acc a, (e.isCertified = true ↔
          ∃ x ∈ processed ++ [a],
            x.multiaddr.render = e.multiaddr.render ∧ x.isCertified = true) := by
        unfold dedupeStep
        by_cases hany : acc.any (fun e => e.multiaddr.render == a.multiaddr.render)
        · rw [if_pos hany]
          intro e he
          rw [List.mem_map] at he
          obtain ⟨x, hx, rfl⟩ := he
          by_cases hxr : x.multiaddr.render = a.multiaddr.render
          · rw [certMerge_of_eq hxr]
            simp only [Bool.or_eq_true]
            constructor
            · rintro (hc | hc)
              · obtain ⟨y, hy, hyr, hyc⟩ := (h2 x hx).mp hc
                exact ⟨y, by simp [hy], hyr, hyc⟩
              · exact ⟨a, by simp, hxr.symm, hc⟩
            · rintro ⟨y, hy, hyr, hyc⟩
              rcases List.mem_append.mp hy with hy | hy
              · exact Or.inl ((h2 x hx).mpr ⟨y, hy, hyr, hyc⟩)
              · simp only [List.mem_singleton] at hy
                subst hy
                exact Or.inr hyc
          · rw [certMerge_of_ne hxr]
            constructor
            · intro hc
              obtain ⟨y, hy, hyr, hyc⟩ := (h2 x hx).mp hc
              exact ⟨y, by simp [hy], hyr, hyc⟩
            · rintro ⟨y, hy, hyr, hyc⟩
              rcases List.mem_append.mp hy with hy | hy
              · exact (h2 x hx).mpr ⟨y, hy, hyr, hyc⟩
              · simp only [List.mem_singleton] at hy
                subst hy
                exact absurd hyr.symm hxr
        · rw [if_neg hany]
          have hnone : ∀ e ∈ acc, e.multiaddr.render ≠ a.multiaddr.render := by
            simpa using hany
          intro e he
          rcases List.mem_append.mp he with he | he
          · constructor
            · intro hc
              obtain ⟨y, hy, hyr, hyc⟩ := (h2 e he).mp hc
              exact ⟨y, by simp [hy], hyr, hyc⟩
            · rintro ⟨y, hy, hyr, hyc⟩
              rcases List.mem_append.mp hy with hy | hy
              · exact (h2 e he).mpr ⟨y, hy, hyr, hyc⟩
              · simp only [List.mem_singleton] at hy
                rw [hy] at hyr
                exact absurd hyr (Ne.symm (hnone e he))
          · simp only [List.mem_singleton] at he
            subst he
            constructor
            · intro hc
              exact ⟨e, by simp, rfl, hc⟩
            · rintro ⟨y, hy, hyr, hyc⟩
              rcases List.mem_append.mp hy with hy | hy
              · obtain ⟨e', he', hr'⟩ := h3 y hy
                exact absurd (hr'.trans hyr) (hnone e' he')
              · simp only [List.mem_singleton] at hy
                subst hy
                exact hyc
      have p3 : ∀ x ∈ processed ++ [a], ∃ e ∈ dedupeStep acc a,
          e.multiaddr.render = x.multiaddr.render := by
        unfold dedupeStep
        by_cases hany : acc.any (fun e => e.multiaddr.render == a.multiaddr.render)
        · rw [if_pos hany]
          intro x hx
          rcases List.mem_append.mp hx with hx | hx
          · obtain ⟨e, he, hr⟩ := h3 x hx
            exact ⟨certMerge a e, List.mem_map.mpr ⟨e, he, rfl⟩,
              by rw [certMerge_multiaddr]; exact hr⟩
          · simp only [List.mem_singleton] at hx
            rw [hx]
            obtain ⟨e, he, hr⟩ := List.any_eq_true.mp hany
            exact ⟨certMerge a e, List.mem_map.mpr ⟨e, he, rfl⟩,
              by rw [certMerge_multiaddr]; exact (beq_iff_eq.mp hr : _)⟩
        · rw [if_neg hany]
          intro x hx
          rcases List.mem_append.mp hx with hx | hx
          · obtain ⟨e, he, hr⟩ := h3 x hx
            exact ⟨e, by simp [he], hr⟩
          · simp only [List.mem_singleton] at hx
            subst hx
            exact ⟨x, by simp, rfl⟩
      have ih := dedupe_go l (dedupeStep acc a) (processed ++ [a]) p1 p2 p3
      simpa [List.foldl_cons, List.append_assoc] using ih

/-- The deduplication pass: pairwise distinct string forms, OR-merged
certification flags, and no string form lost. -/
lemma dedupeAddrs_spec (l : List Address) :
    (dedupeAddrs l).Pairwise (fun a b => a.multiaddr.render ≠ b.multiaddr.render) ∧
    (∀ e ∈ dedupeAddrs l, (e.isCertified = true ↔
      ∃ x ∈ l, x.multiaddr.render = e.multiaddr.render ∧ x.isCertified = true)) ∧
    (∀ x ∈ l, ∃ e ∈ dedupeAddrs l, e.multiaddr.render = x.multiaddr.render) := by
  have := dedupe_go l [] [] (by simp) (by simp) (by simp)
  simpa [dedupeAddrs] using this

lemma maPeerId_encapP2p (m : Multiaddr) (pid : PeerId) :
    (m.encapP2p pid).maPeerId = some pid := by
  unfold Multiaddr.maPeerId Multiaddr.encapP2p
  simp [List.filter_append]

/-- After the suffixing step, a non-path candidate always carries a peer
id component. -/
lemma appendPeerId_hasPeerId (pid : PeerId) (a : Address)
    (h : (appendPeerId pid a).multiaddr.lastIsPath = false) :
    ((appendPeerId pid a).multiaddr.maPeerId).isSome = true := by
  unfold appendPeerId at h ⊢
  by_cases hp : a.multiaddr.lastIsPath
  · rw [if_pos hp] at h
    exact absurd h (by simp [hp])
  · rw [if_neg hp] at h ⊢
    by_cases hid : a.multiaddr.maPeerId = none
    · rw [if_pos hid]
      simp [maPeerId_encapP2p]
    · rw [if_neg hid]
      simp [Option.isSome_iff_ne_none, hid]

/-- The tail of a successful `calculateMultiaddrs` applied to a deduped
base list: the checks passed and `out = gateAndSort cfg peerId? deduped`. -/
lemma calculateMultiaddrs_tail_ok (cfg : DialConfig) (peerId? : Option PeerId)
    (base out : List Address)
    (hok : ((if (dedupedOf cfg base).length = 0 then
        throw DialError.noValidAddresses
      else if (dedupedOf cfg base).length > cfg.maxPeerAddrsToDial then
        throw DialError.tooManyAddresses
      else
        pure (gateAndSort cfg peerId? (dedupedOf cfg base))) :
        Except DialError (List Address)) = .ok out) :
    out = gateAndSort cfg peerId? (dedupedOf cfg base) := by
  by_cases h0 : (dedupedOf cfg base).length = 0
  · rw [if_pos h0] at hok
    exact absurd hok (by simp [throw, throwThe, MonadExceptOf.throw])
  · rw [if_neg h0] at hok
    by_cases hmax : (dedupedOf cfg base).length > cfg.maxPeerAddrsToDial
    · rw [if_pos hmax] at hok
      exact absurd hok (by simp [throw, throwThe, MonadExceptOf.throw])
    · rw [if_neg hmax] at hok
      exact (Except.ok.inj hok).symm

lemma gateAndSort_some (cfg : DialConfig) (pid : PeerId) (ded : List Address) :
    gateAndSort cfg (some pid) ded =
      ((ded.map (appendPeerId pid)).filter
        (fun a => !cfg.denyDialMultiaddr a.multiaddr)).insertionSort
        (fun a b => cfg.addressSorter a b = true) := rfl

/-- Inversion of a successful `calculateMultiaddrs` with a known peer id:
the output is the dedup of the resolved and transport-filtered base list,
suffixed with the peer id, gated and sorted — in that order. -/
lemma calculateMultiaddrs_ok_shape (cfg : DialConfig) (pid : PeerId)
    (addrs out : List Address)
    (hok : DialQueue.calculateMultiaddrs cfg (some pid) addrs = .ok out) :
    ∃ base : List Address,
      out = gateAndSort cfg (some pid) (dedupedOf cfg base) := by
  unfold DialQueue.calculateMultiaddrs at hok
  dsimp only at hok
  by_cases hself : cfg.self = pid
  · simp [hself, Bind.bind, Except.bind, throw, throwThe, MonadExceptOf.throw] at hok
  · rw [if_neg hself] at hok
    by_cases hdeny : cfg.denyDialPeer pid = true
    · simp [hdeny, Bind.bind, Except.bind, throw, throwThe, MonadExceptOf.throw] at hok
    · rw [if_neg hdeny] at hok
      by_cases hlen : addrs.length = 0
      · rw [if_pos hlen] at hok
        exact ⟨cfg.storeAddrs pid,
          calculateMultiaddrs_tail_ok cfg (some pid) (cfg.storeAddrs pid) out hok⟩
      · rw [if_neg hlen] at hok
        exact ⟨addrs, calculateMultiaddrs_tail_ok cfg (some pid) addrs out hok⟩

/-- C7 counterexample: with a transport address present both with and
without the target's `/p2p/` suffix, the final candidate list contains two
entries that are equal by string form — dedup runs before the suffix is
appended. -/
theorem calculateMultiaddrs_duplicate_entries :
    DialQueue.calculateMultiaddrs cfgSample (some "QmTarget")
      [⟨maTcp, false⟩, ⟨maTcpWithPeer, false⟩] =
      .ok [⟨maTcpWithPeer, false⟩, ⟨maTcpWithPeer, false⟩] ∧
    ¬ ([(⟨maTcpWithPeer, false⟩ : Address), ⟨maTcpWithPeer, false⟩].Pairwise
        (fun a b => a.multiaddr.render ≠ b.multiaddr.render)) := by
  refine ⟨rfl, fun h => ?_⟩
  exact (List.pairwise_cons.mp h).1 _ (by simp) rfl

/-- C7 (amended): the candidates produced by `calculateMultiaddrs` are
deduplicated by string form before the `/p2p/` suffix is appended (so the
final list may repeat a string when an entry with and without the suffix
both occur), with `isCertified` OR-merged across duplicates; every final
entry whose last protocol is not a path form carries a peer id suffix;
gater-denied entries are absent; and the list is ordered by the configured
address sorter. -/
theorem calculateMultiaddrs_candidate_properties (cfg : DialConfig)
    (pid : PeerId) (addrs out : List Address)
    (hok : DialQueue.calculateMultiaddrs cfg (some pid) addrs = .ok out)
    (htot : ∀ a b : Address,
      cfg.addressSorter a b = true ∨ cfg.addressSorter b a = true)
    (htrans : ∀ a b c : Address, cfg.addressSorter a b = true →
      cfg.addressSorter b c = true → cfg.addressSorter a c = true) :
    (∀ l : List Address, (dedupeAddrs l).Pairwise
      (fun a b => a.multiaddr.render ≠ b.multiaddr.render)) ∧
    (∀ (l : List Address), ∀ e ∈ dedupeAddrs l, (e.isCertified = true ↔
      ∃ x ∈ l, x.multiaddr.render = e.multiaddr.render ∧ x.isCertified = true)) ∧
    (∀ a ∈ out, cfg.denyDialMultiaddr a.multiaddr = false) ∧
    (∀ a ∈ out, a.multiaddr.lastIsPath = false →
      (a.multiaddr.maPeerId).isSome = true) ∧
    out.Sorted (fun a b => cfg.addressSorter a b = true) := by
  obtain ⟨base, hshape⟩ := calculateMultiaddrs_ok_shape cfg pid addrs out hok
  have hmem : ∀ a, a ∈ out →
      a ∈ ((dedupedOf cfg base).map (appendPeerId pid)).filter
        (fun a => !cfg.denyDialMultiaddr a.multiaddr) := by
    intro a ha
    rw [hshape, gateAndSort_some] at ha
    exact (List.perm_insertionSort _ _).mem_iff.mp ha
  refine ⟨fun l => (dedupeAddrs_spec l).1, fun l => (dedupeAddrs_spec l).2.1,
    ?_, ?_, ?_⟩
  · intro a ha
    have := List.of_mem_filter (hmem a ha)
    simpa using this
  · intro a ha hpath
    have := List.mem_of_mem_filter (hmem a ha)
    obtain ⟨y, _, rfl⟩ := List.mem_map.mp this
    exact appendPeerId_hasPeerId pid y hpath
  · rw [hshape, gateAndSort_some]
    letI : IsTotal Address (fun a b => cfg.addressSorter a b = true) := ⟨htot⟩
    letI : IsTrans Address (fun a b => cfg.addressSorter a b = true) :=
      ⟨fun a b c => htrans a b c⟩
    exact List.sorted_insertionSort _ _

/-- Witness for C7 (amended): a single transport address gains the
`/p2p/` suffix and every conjunct holds at this input. -/
theorem calculateMultiaddrs_candidate_properties_witness :
    (DialQueue.calculateMultiaddrs cfgSample (some "QmTarget")
      [⟨maTcp, false⟩] = .ok [⟨maTcpWithPeer, false⟩]) ∧
    ((∀ l : List Address, (dedupeAddrs l).Pairwise
      (fun a b => a.multiaddr.render ≠ b.multiaddr.render)) ∧
    (∀ (l : List Address), ∀ e ∈ dedupeAddrs l, (e.isCertified = true ↔
      ∃ x ∈ l, x.multiaddr.render = e.multiaddr.render ∧ x.isCertified = true)) ∧
    (∀ a ∈ [(⟨maTcpWithPeer, false⟩ : Address)],
      cfgSample.denyDialMultiaddr a.multiaddr = false) ∧
    (∀ a ∈ [(⟨maTcpWithPeer, false⟩ : Address)], a.multiaddr.lastIsPath = false →
      (a.multiaddr.maPeerId).isSome = true) ∧
    List.Sorted (fun a b => cfgSample.addressSorter a b = true)
      [(⟨maTcpWithPeer, false⟩ : Address)]) :=
  ⟨rfl,
    calculateMultiaddrs_candidate_properties cfgSample "QmTarget"
      [⟨maTcp, false⟩] [⟨maTcpWithPeer, false⟩] rfl
      (fun _ _ => Or.inl rfl) (fun _ _ _ _ _ => rfl)⟩

/-- Witness for C6: one failing address, with the timeout fired. -/
theorem dial_all_fail_error_witness :
    (∀ a ∈ [maTcp],
      ((fun _ => (Except.error (JsError.code "EX" "boom") : Except JsError Nat)) a).isOk
        = false) ∧
    ((∀ a, [maTcp] = [a] →
      dialRejection [maTcp] (fun _ => .error (.code "EX" "boom")) false =
        .error (errOf ((fun _ => (Except.error (JsError.code "EX" "boom") : Except JsError Nat)) a))) ∧
    (1 < [maTcp].length → dialRejection [maTcp] (fun _ => .error (.code "EX" "boom")) false =
      .error (.aggregate ([maTcp].map (fun a =>
        errOf ((fun _ => (Except.error (JsError.code "EX" "boom") : Except JsError Nat)) a))))) ∧
    ([maTcp] ≠ [] → true = true →
      ∃ m, dialRejection [maTcp] (fun _ => .error (.code "EX" "boom")) true =
        .error (.code "ERR_TIMEOUT" m))) :=
  ⟨by intro a _; rfl,
    dial_all_fail_error [maTcp] (fun _ => .error (.code "EX" "boom")) true
      (by intro a _; rfl)⟩

/-! ### Identify service -/

/-- Inversion of a successful `#consumeIdentifyMessage` carrying a signed
record: the envelope verified, the ids matched, and the stored patch holds
the winner record — the stored one when its sequence number dominates,
else the incoming one — with certified addresses. -/
lemma consume_signed_ok (remotePeer : PeerId) (existing : Option StoredPeer)
    (msg : IdentifyMessage) (env : SignedEnvelope) (p : StoredPeer)
    (o : Option (Nat × List Multiaddr))
    (hmsg : msg.signedPeerRecord = some env)
    (hok : consumeIdentifyMessage remotePeer existing msg = .ok (p, o)) :
    env.sigValid = true ∧ env.record.peerId = env.signer ∧
    remotePeer = env.record.peerId ∧
    ∃ winEnv : SignedEnvelope,
      p.peerRecordEnvelope = some winEnv ∧
      p.addresses = winEnv.record.multiaddrs.map (fun m => ⟨m, true⟩) ∧
      o = some (winEnv.record.seqNumber, winEnv.record.multiaddrs) ∧
      ((∃ ex storedEnv, existing = some ex ∧ ex.peerRecordEnvelope = some storedEnv ∧
          env.record.seqNumber ≤ storedEnv.record.seqNumber ∧ winEnv = storedEnv) ∨
        (winEnv = env ∧ ∀ ex storedEnv, existing = some ex →
          ex.peerRecordEnvelope = some storedEnv →
          storedEnv.record.seqNumber < env.record.seqNumber)) ∧
      (∀ ex storedEnv, existing = some ex → ex.peerRecordEnvelope = some storedEnv →
        storedEnv.record.seqNumber ≤ winEnv.record.seqNumber) := by
  unfold consumeIdentifyMessage at hok
  rw [hmsg] at hok
  dsimp only at hok
  by_cases hsig : env.sigValid = true
  case neg =>
    rw [show openAndCertify env = .error "invalid signature" from by
      simp [openAndCertify, hsig]] at hok
    exact absurd hok (by simp)
  rw [show openAndCertify env = .ok env from by simp [openAndCertify, hsig]] at hok
  dsimp only at hok
  by_cases h1 : env.record.peerId = env.signer
  case neg =>
    rw [if_pos h1] at hok
    exact absurd hok (by simp)
  rw [if_neg (by simp [h1])] at hok
  by_cases h2 : remotePeer = env.record.peerId
  case neg =>
    rw [if_pos h2] at hok
    exact absurd hok (by simp)
  rw [if_neg (by simp [h2])] at hok
  refine ⟨hsig, h1, h2, ?_⟩
  cases existing with
  | none =>
      dsimp only at hok
      have hinj := Except.ok.inj hok
      rw [Prod.mk.injEq] at hinj
      obtain ⟨hp, ho⟩ := hinj
      exact ⟨env, by rw [← hp], by rw [← hp], by rw [← ho],
        Or.inr ⟨rfl, fun ex st hex _ => by cases hex⟩,
        fun ex st hex _ => by cases hex⟩
  | some ex =>
      cases hpe : ex.peerRecordEnvelope with
      | none =>
          dsimp only at hok
          rw [hpe] at hok
          dsimp only at hok
          have hinj := Except.ok.inj hok
          rw [Prod.mk.injEq] at hinj
          obtain ⟨hp, ho⟩ := hinj
          refine ⟨env, by rw [← hp], by rw [← hp], by rw [← ho],
            Or.inr ⟨rfl, fun ex' st' hex' hst' => ?_⟩,
            fun ex' st' hex' hst' => ?_⟩ <;>
          · cases hex'
            rw [hpe] at hst'
            cases hst'
      | some storedEnv =>
          dsimp only at hok
          rw [hpe] at hok
          dsimp only at hok
          by_cases hseq : storedEnv.record.seqNumber ≥ env.record.seqNumber
          · rw [if_pos hseq] at hok
            have hinj := Except.ok.inj hok
            rw [Prod.mk.injEq] at hinj
            obtain ⟨hp, ho⟩ := hinj
            refine ⟨storedEnv, by rw [← hp], by rw [← hp], by rw [← ho],
              Or.inl ⟨ex, storedEnv, rfl, hpe, hseq, rfl⟩,
              fun ex' st' hex' hst' => ?_⟩
            cases hex'
            rw [hpe] at hst'
            cases hst'
            exact le_refl _
          · rw [if_neg hseq] at hok
            have hinj := Except.ok.inj hok
            rw [Prod.mk.injEq] at hinj
            obtain ⟨hp, ho⟩ := hinj
            have hlt : storedEnv.record.seqNumber < env.record.seqNumber :=
              lt_of_not_ge hseq
            refine ⟨env, by rw [← hp], by rw [← hp], by rw [← ho],
              Or.inr ⟨rfl, fun ex' st' hex' hst' => ?_⟩,
              fun ex' st' hex' hst' => ?_⟩ <;>
            · cases hex'
              rw [hpe] at hst'
              cases hst'
              first
              | exact hlt
              | exact le_of_lt hlt

/-- One identify message carrying a signed record never decreases the
stored sequence number. -/
lemma storedSeq_step_mono (remotePeer : PeerId) (st : Option StoredPeer)
    (msg : IdentifyMessage) (hsig : msg.signedPeerRecord.isSome = true)
    (s : Nat) (hs : storedSeq st = some s) :
    ∃ t, storedSeq (stepStore remotePeer st msg) = some t ∧ s ≤ t := by
  obtain ⟨env, henv⟩ := Option.isSome_iff_exists.mp hsig
  cases st with
  | none => simp [storedSeq] at hs
  | some ex =>
      cases hpe : ex.peerRecordEnvelope with
      | none => simp [storedSeq, hpe] at hs
      | some storedEnv =>
          have hs' : storedEnv.record.seqNumber = s := by
            simpa [storedSeq, hpe] using hs
          unfold stepStore
          cases hcon : consumeIdentifyMessage remotePeer (some ex) msg with
          | error e =>
              exact ⟨s, by simp [storedSeq, hpe, hs'], le_refl s⟩
          | ok pr =>
              obtain ⟨p, o⟩ := pr
              obtain ⟨_, _, _, winEnv, hwin, _, _, _, hle⟩ :=
                consume_signed_ok remotePeer (some ex) msg env p o henv hcon
              exact ⟨winEnv.record.seqNumber, by simp [storedSeq, hwin],
                hs' ▸ hle ex storedEnv rfl hpe⟩

/-- Along a trace of signed identify messages, the stored sequence number
never decreases. -/
lemma consumeTrace_mono (remotePeer : PeerId) :
    ∀ (msgs : List IdentifyMessage) (st : Option StoredPeer),
      (∀ m ∈ msgs, m.signedPeerRecord.isSome = true) →
      ∀ s, storedSeq st = some s →
        ∃ t, storedSeq (consumeTrace remotePeer st msgs) = some t ∧ s ≤ t
  | [], st, _, s, hs => ⟨s, hs, le_refl s⟩
  | m :: ms, st, hall, s, hs => by
      obtain ⟨t1, ht1, hst1⟩ := storedSeq_step_mono remotePeer st m
        (hall m (by simp)) s hs
      obtain ⟨t2, ht2, hst2⟩ := consumeTrace_mono remotePeer ms
        (stepStore remotePeer st m) (fun x hx => hall x (by simp [hx])) t1 ht1
      exact ⟨t2, ht2, le_trans hst1 hst2⟩

/-- C2: over any in-order sequence of identify messages carrying signed
peer records, the stored record's sequence number never decreases; an
incoming record whose sequence number is at most the stored one is
discarded in favour of the stored record, and the winner's addresses are
stored with `isCertified = true`. -/
theorem identify_signed_record_monotonic (remotePeer : PeerId)
    (st : Option StoredPeer) (msgs : List IdentifyMessage)
    (hall : ∀ m ∈ msgs, m.signedPeerRecord.isSome = true) :
    (∀ s, storedSeq st = some s →
      ∃ t, storedSeq (consumeTrace remotePeer st msgs) = some t ∧ s ≤ t) ∧
    (∀ (ex : StoredPeer) (storedEnv env : SignedEnvelope)
        (msg : IdentifyMessage) (p : StoredPeer) (o : Option (Nat × List Multiaddr)),
      ex.peerRecordEnvelope = some storedEnv → msg.signedPeerRecord = some env →
      consumeIdentifyMessage remotePeer (some ex) msg = .ok (p, o) →
      (env.record.seqNumber ≤ storedEnv.record.seqNumber →
        p.peerRecordEnvelope = some storedEnv ∧
        p.addresses = storedEnv.record.multiaddrs.map (fun m => ⟨m, true⟩)) ∧
      (∀ a ∈ p.addresses, a.isCertified = true)) := by
  refine ⟨fun s hs => consumeTrace_mono remotePeer msgs st hall s hs, ?_⟩
  intro ex storedEnv env msg p o hpe hmsg hok
  obtain ⟨_, _, _, winEnv, hwin, haddr, _, hcases, _⟩ :=
    consume_signed_ok remotePeer (some ex) msg env p o hmsg hok
  constructor
  · intro hle
    rcases hcases with ⟨ex', storedEnv', hex', hst', _, hwinEq⟩ | ⟨hwinEq, hfresh⟩
    · cases hex'
      rw [hpe] at hst'
      cases hst'
      exact ⟨hwinEq ▸ hwin, hwinEq ▸ haddr⟩
    · exact absurd (hfresh ex storedEnv rfl hpe) (not_lt_of_ge hle)
  · intro a ha
    rw [haddr] at ha
    obtain ⟨m, _, rfl⟩ := List.mem_map.mp ha
    rfl

/-- Witness for C2: a stored record with sequence number 5 beats an
incoming record with sequence number 1. -/
theorem identify_signed_record_monotonic_witness :
    (∀ m ∈ [msgWithRecord envLow], m.signedPeerRecord.isSome = true) ∧
    ((∀ s, storedSeq (some storedHigh) = some s →
      ∃ t, storedSeq (consumeTrace "QmRemote" (some storedHigh)
        [msgWithRecord envLow]) = some t ∧ s ≤ t) ∧
    (∀ (ex : StoredPeer) (storedEnv env : SignedEnvelope)
        (msg : IdentifyMessage) (p : StoredPeer) (o : Option (Nat × List Multiaddr)),
      ex.peerRecordEnvelope = some storedEnv → msg.signedPeerRecord = some env →
      consumeIdentifyMessage "QmRemote" (some ex) msg = .ok (p, o) →
      (env.record.seqNumber ≤ storedEnv.record.seqNumber →
        p.peerRecordEnvelope = some storedEnv ∧
        p.addresses = storedEnv.record.multiaddrs.map (fun m => ⟨m, true⟩)) ∧
      (∀ a ∈ p.addresses, a.isCertified = true))) :=
  ⟨by decide,
    identify_signed_record_monotonic "QmRemote" (some storedHigh)
      [msgWithRecord envLow] (by decide)⟩

/-- C3 counterexample: a message with no public key fails with
`ErrMissingPublicKey`, not `ErrInvalidPeer` as the claim states. -/
theorem identify_missing_key_not_invalid_peer :
    identifyStep (fun pk => pk) "QmSelf" "QmRemote" none msgNoKey =
      .error .missingPublicKey ∧
    IdentifyFailure.missingPublicKey ≠ IdentifyFailure.invalidPeer ∧
    IdentifyFailure.code .missingPublicKey ≠ IdentifyFailure.code .invalidPeer :=
  ⟨rfl, by decide, by decide⟩

/-- C3 (amended): a missing public key fails identify with
`ErrMissingPublicKey`; a derived peer id different from the remote peer,
or equal to self, fails with `ErrInvalidPeer`; and on every failure the
`peer:identify` event is not emitted and the Peer Store is not written. -/
theorem identify_validation_errors (derivePeerId : String → PeerId)
    (self remotePeer : PeerId) (store : PeerId → Option StoredPeer)
    (msg : IdentifyMessage) :
    (msg.publicKey = none →
      identifyStep derivePeerId self remotePeer (store remotePeer) msg =
        .error .missingPublicKey) ∧
    (∀ pk, msg.publicKey = some pk → remotePeer ≠ derivePeerId pk →
      identifyStep derivePeerId self remotePeer (store remotePeer) msg =
        .error .invalidPeer) ∧
    (∀ pk, msg.publicKey = some pk → remotePeer = derivePeerId pk →
      self = derivePeerId pk →
      identifyStep derivePeerId self remotePeer (store remotePeer) msg =
        .error .invalidPeer) ∧
    (∀ e, identifyStep derivePeerId self remotePeer (store remotePeer) msg =
        .error e →
      identifyEffect derivePeerId self remotePeer store msg = (store, [])) ∧
    IdentifyFailure.code .missingPublicKey = "ERR_MISSING_PUBLIC_KEY" ∧
    IdentifyFailure.code .invalidPeer = "ERR_INVALID_PEER" := by
  refine ⟨?_, ?_, ?_, ?_, rfl, rfl⟩
  · intro hnone
    unfold identifyStep
    rw [hnone]
  · intro pk hpk hne
    unfold identifyStep
    rw [hpk]
    dsimp only
    rw [if_pos hne]
  · intro pk hpk heq hself
    unfold identifyStep
    rw [hpk]
    dsimp only
    rw [if_neg (by simp [heq]), if_pos hself]
  · intro e he
    unfold identifyEffect
    rw [he]

/-- Witness for C3 (amended) at concrete inputs: the missing-key message. -/
theorem identify_validation_errors_witness :
    (msgNoKey.publicKey = none) ∧
    ((msgNoKey.publicKey = none →
      identifyStep (fun pk => pk) "QmSelf" "QmRemote"
        ((fun _ => (none : Option StoredPeer)) "QmRemote") msgNoKey =
        .error .missingPublicKey) ∧
    (∀ pk, msgNoKey.publicKey = some pk → "QmRemote" ≠ (fun pk => pk) pk →
      identifyStep (fun pk => pk) "QmSelf" "QmRemote"
        ((fun _ => (none : Option StoredPeer)) "QmRemote") msgNoKey =
        .error .invalidPeer) ∧
    (∀ pk, msgNoKey.publicKey = some pk → "QmRemote" = (fun pk => pk) pk →
      "QmSelf" = (fun pk => pk) pk →
      identifyStep (fun pk => pk) "QmSelf" "QmRemote"
        ((fun _ => (none : Option StoredPeer)) "QmRemote") msgNoKey =
        .error .invalidPeer) ∧
    (∀ e, identifyStep (fun pk => pk) "QmSelf" "QmRemote"
        ((fun _ => (none : Option StoredPeer)) "QmRemote") msgNoKey = .error e →
      identifyEffect (fun pk => pk) "QmSelf" "QmRemote"
        (fun _ => (none : Option StoredPeer)) msgNoKey =
        ((fun _ => (none : Option StoredPeer)), [])) ∧
    IdentifyFailure.code .missingPublicKey = "ERR_MISSING_PUBLIC_KEY" ∧
    IdentifyFailure.code .invalidPeer = "ERR_INVALID_PEER") :=
  ⟨rfl, identify_validation_errors (fun pk => pk) "QmSelf" "QmRemote"
    (fun _ => none) msgNoKey⟩

/-- C4 counterexample: an identify failure that proves a peer-id mismatch
(the identified key derives a different peer id than the connection's
remote peer) does not abort the connection — the handler only logs it. -/
theorem identify_mismatch_does_not_abort :
    identifyStep (fun pk => pk) "QmSelf" "QmRemote"
      ((fun _ => (none : Option StoredPeer)) "QmRemote") msgMismatch =
      .error .invalidPeer ∧
    onConnectionOpenIdentify (fun pk => pk) "QmSelf" "QmRemote"
      (fun _ => none) msgMismatch ⟨false⟩ = (⟨false⟩, some .invalidPeer) :=
  ⟨rfl, rfl⟩

/-! ### Peer store reads -/

lemma mapSet_mem {β : Type} (m : List (String × β)) (k : String) (v : β)
    (k' : String) (v' : β) (h : (k', v') ∈ mapSet m k v) :
    v' = v ∨ (k', v') ∈ m := by
  unfold mapSet at h
  by_cases hany : m.any (fun kv => kv.1 == k)
  · rw [if_pos hany] at h
    obtain ⟨kv, hkv, heq⟩ := List.mem_map.mp h
    by_cases hk : kv.1 == k
    · rw [if_pos hk] at heq
      rw [Prod.mk.injEq] at heq
      exact Or.inl heq.2.symm
    · rw [if_neg hk] at heq
      exact Or.inr (heq ▸ hkv)
  · rw [if_neg hany] at h
    rcases List.mem_append.mp h with h | h
    · exact Or.inr h
    · simp only [List.mem_singleton, Prod.mk.injEq] at h
      exact Or.inl h.2

/-- The tag-filtering fold of `bytesToPeer` only ever holds unexpired
tags. -/
lemma tagsFold_inv (now : Nat) :
    ∀ (l acc : List (String × TagValue)),
      (∀ k t, (k, t) ∈ acc → ∀ e, t.expiry = some e → ¬ e < now) →
      ∀ k t, (k, t) ∈ l.foldl (fun acc kv =>
        match kv.2.expiry with
        | some e => if e < now then acc else mapSet acc kv.1 kv.2
        | none => mapSet acc kv.1 kv.2) acc →
      ∀ e, t.expiry = some e → ¬ e < now
  | [], acc, hacc, k, t, ht, e, he => hacc k t ht e he
  | kv :: l, acc, hacc, k, t, ht, e, he => by
      have hstep : ∀ k' t', (k', t') ∈ (match kv.2.expiry with
          | some e => if e < now then acc else mapSet acc kv.1 kv.2
          | none => mapSet acc kv.1 kv.2) →
          ∀ e', t'.expiry = some e' → ¬ e' < now := by
        intro k' t' ht' e' he'
        cases hx : kv.2.expiry with
        | none =>
            rw [hx] at ht'
            rcases mapSet_mem _ _ _ _ _ ht' with rfl | hmem
            · rw [hx] at he'
              cases he'
            · exact hacc k' t' hmem e' he'
        | some ex =>
            rw [hx] at ht'
            dsimp only at ht'
            by_cases hlt : ex < now
            · rw [if_pos hlt] at ht'
              exact hacc k' t' ht' e' he'
            · rw [if_neg hlt] at ht'
              rcases mapSet_mem _ _ _ _ _ ht' with rfl | hmem
              · rw [hx] at he'
                cases he'
                exact hlt
              · exact hacc k' t' hmem e' he'
      exact tagsFold_inv now l _ hstep k t ht e he

/-- C9: every tag whose expiry lies before the read time is absent from
the tags map returned by `bytesToPeer`, whatever the on-disk entry holds. -/
theorem peer_store_expired_tags_filtered (peer : PeerPB) (now : Nat) :
    ∀ k t, (k, t) ∈ (bytesToPeer peer now).tags →
      ∀ e, t.expiry = some e → ¬ e < now := by
  intro k t ht e he
  unfold bytesToPeer at ht
  dsimp only at ht
  exact tagsFold_inv now peer.tags [] (by intro k' t' h; cases h) k t ht e he

/-- Witness for C9: an expired tag is dropped, an unexpired one kept. -/
theorem peer_store_expired_tags_filtered_witness :
    ((("fresh", (⟨10, some 100⟩ : TagValue)) ∈
      (bytesToPeer ⟨[], [], [], [("old", ⟨7, some 3⟩), ("fresh", ⟨10, some 100⟩)],
        none, none⟩ 50).tags) ∧
    (∀ e, (⟨10, some 100⟩ : TagValue).expiry = some e → ¬ e < 50)) ∧
    ((bytesToPeer ⟨[], [], [], [("old", ⟨7, some 3⟩), ("fresh", ⟨10, some 100⟩)],
        none, none⟩ 50).tags = [("fresh", ⟨10, some 100⟩)]) :=
  ⟨⟨by decide,
    peer_store_expired_tags_filtered
      ⟨[], [], [], [("old", ⟨7, some 3⟩), ("fresh", ⟨10, some 100⟩)], none, none⟩
      50 "fresh" ⟨10, some 100⟩ (by decide)⟩,
    by decide⟩

/-! ### Node lifecycle -/

/-- C10: `start` and `stop` are idempotent — a second `start` after a
`start` runs no hooks and leaves the state unchanged, `start` on a started
node and `stop` on a stopped node return immediately with no hooks, and
likewise a second `stop` after a `stop`. -/
theorem start_stop_idempotent (services : List String) (st : NodeState) :
    (Libp2pNode.start services (Libp2pNode.start services st).1 =
      ((Libp2pNode.start services st).1, [])) ∧
    (st.started = true → Libp2pNode.start services st = (st, [])) ∧
    (st.started = false → Libp2pNode.stop services st = (st, [])) ∧
    (Libp2pNode.stop services (Libp2pNode.stop services st).1 =
      ((Libp2pNode.stop services st).1, [])) := by
  obtain ⟨b⟩ := st
  cases b <;>
    simp [Libp2pNode.start, Libp2pNode.stop]

/-- Witness for C10 at a concrete state: a stopped node with one service. -/
theorem start_stop_idempotent_witness :
    ((Libp2pNode.start ["svc"] (Libp2pNode.start ["svc"] ⟨false⟩).1 =
      ((Libp2pNode.start ["svc"] ⟨false⟩).1, [])) ∧
    ((⟨false⟩ : NodeState).started = true →
      Libp2pNode.start ["svc"] ⟨false⟩ = (⟨false⟩, [])) ∧
    ((⟨false⟩ : NodeState).started = false →
      Libp2pNode.stop ["svc"] ⟨false⟩ = (⟨false⟩, [])) ∧
    (Libp2pNode.stop ["svc"] (Libp2pNode.stop ["svc"] ⟨false⟩).1 =
      ((Libp2pNode.stop ["svc"] ⟨false⟩).1, []))) :=
  start_stop_idempotent ["svc"] ⟨false⟩

/-! ### Address manager -/

lemma maPeerId_eq_none_of_noP2p (m : Multiaddr) (h : noP2p m) :
    m.maPeerId = none := by
  unfold Multiaddr.maPeerId
  have hfil : m.comps.filter (fun c => c.name == "p2p") = [] := by
    rw [List.filter_eq_nil_iff]
    intro c hc
    simpa using h c hc
  rw [hfil]
  rfl

lemma stripPeerId_of_noP2p (m : Multiaddr) (self : PeerId) (h : noP2p m) :
    stripPeerId m self = m := by
  unfold stripPeerId
  rw [maPeerId_eq_none_of_noP2p m h]

/-- The `addrSet` fold loses no string form and invents no entry. -/
lemma dedupeByRender_go : ∀ (l acc : List Multiaddr),
    (∀ y ∈ l.foldl dedupeRStep acc, y ∈ acc ∨ y ∈ l) ∧
    (∀ x ∈ acc ++ l, ∃ y ∈ l.foldl dedupeRStep acc, y.render = x.render)
  | [], acc => ⟨fun y hy => Or.inl hy, fun x hx => ⟨x, by simpa using hx, rfl⟩⟩
  | a :: l, acc => by
      have key : (a :: l).foldl dedupeRStep acc = l.foldl dedupeRStep (dedupeRStep acc a) := rfl
      have ih := dedupeByRender_go l (dedupeRStep acc a)
      rw [key]
      constructor
      · intro y hy
        rcases ih.1 y hy with hy | hy
        · unfold dedupeRStep at hy
          by_cases hany : acc.any (fun e => e.render == a.render)
          · rw [if_pos hany] at hy
            exact Or.inl hy
          · rw [if_neg hany] at hy
            rcases List.mem_append.mp hy with hy | hy
            · exact Or.inl hy
            · simp only [List.mem_singleton] at hy
              exact Or.inr (by simp [hy])
        · exact Or.inr (by simp [hy])
      · intro x hx
        have hx' : x ∈ (dedupeRStep acc a) ++ l ∨ x.render = a.render := by
          rcases List.mem_append.mp hx with hx | hx
          · refine Or.inl (List.mem_append.mpr (Or.inl ?_))
            unfold dedupeRStep
            by_cases hany : acc.any (fun e => e.render == a.render)
            · rw [if_pos hany]
              exact hx
            · rw [if_neg hany]
              exact List.mem_append.mpr (Or.inl hx)
          · rcases List.mem_cons.mp hx with hx | hx
            · exact Or.inr (by rw [hx])
            · exact Or.inl (List.mem_append.mpr (Or.inr hx))
        rcases hx' with hx' | hx'
        · exact ih.2 x hx'
        · -- x shares its string form with the inserted head
          have ha : ∃ y ∈ l.foldl dedupeRStep (dedupeRStep acc a), y.render = a.render := by
            by_cases hany : acc.any (fun e => e.render == a.render)
            · have hstep : dedupeRStep acc a = acc := by
                unfold dedupeRStep
                rw [if_pos hany]
              obtain ⟨e, he, hre⟩ := List.any_eq_true.mp hany
              obtain ⟨y, hy, hyr⟩ := ih.2 e (by
                rw [hstep]
                exact List.mem_append.mpr (Or.inl he))
              exact ⟨y, hy, hyr.trans (beq_iff_eq.mp hre)⟩
            · have hstep : dedupeRStep acc a = acc ++ [a] := by
                unfold dedupeRStep
                rw [if_neg hany]
              obtain ⟨y, hy, hyr⟩ := ih.2 a (by
                rw [hstep]
                exact List.mem_append.mpr
                  (Or.inl (List.mem_append.mpr (Or.inr (by simp)))))
              exact ⟨y, hy, hyr⟩
          obtain ⟨y, hy, hyr⟩ := ha
          exact ⟨y, hy, hyr.trans hx'.symm⟩

/-- `getAddresses` with no DNS mappings and the default announce filter:
the advertised list is the deduplicated base plus confident-observed
addresses, each in its advertised form. -/
lemma getAddresses_no_mappings (self : PeerId) (transportAddrs : List Multiaddr)
    (st : AMState) :
    AddressManager.getAddresses self transportAddrs [] (fun l => l) st =
      (dedupeByRender
        ((if st.announce.length = 0 then transportAddrs else st.announce) ++
          (st.observed.filter (fun e => e.2)).map (fun e => e.1))).map
        (advertiseForm self) := by
  have hmap : ∀ l : List Multiaddr,
      ((l.map (applyMappings [])).filter (fun r => r.2)).map
        (fun r => (r : Multiaddr × Bool).1) = [] := by
    intro l
    induction l with
    | nil => rfl
    | cons x xs ih =>
        have hx : applyMappings [] x = (x, false) := rfl
        simp only [List.map_cons, hx, List.filter_cons]
        exact ih
  unfold AddressManager.getAddresses
  dsimp only
  rw [hmap, List.append_nil, dedupeByRender]

/-- Invariant of the observed-address event fold: announce is untouched,
every observed key comes from an event (or the initial state), an entry is
confident only if some confirm supplied its string form, confidence is
never lost, and every confirm leaves a confident entry. -/
lemma runObsEvents_spec (self : PeerId) :
    ∀ (events : List ObsEvent) (st : AMState),
      (∀ ev ∈ events, noP2p ev.addr) →
      ((runObsEvents self st events).announce = st.announce) ∧
      (∀ p ∈ (runObsEvents self st events).observed,
        (∃ q ∈ st.observed, (q : Multiaddr × Bool).1 = p.1) ∨
          ∃ ev ∈ events, ObsEvent.addr ev = p.1) ∧
      (∀ p ∈ (runObsEvents self st events).observed, p.2 = true →
        (∃ q ∈ st.observed, (q : Multiaddr × Bool).1.render = p.1.render ∧ q.2 = true) ∨
          ∃ b, ObsEvent.confirm b ∈ events ∧ b.render = p.1.render) ∧
      (∀ q ∈ st.observed, (q : Multiaddr × Bool).2 = true →
        ∃ p ∈ (runObsEvents self st events).observed,
          (p : Multiaddr × Bool).1.render = q.1.render ∧ p.2 = true) ∧
      (∀ b, ObsEvent.confirm b ∈ events →
        ∃ p ∈ (runObsEvents self st events).observed,
          (p : Multiaddr × Bool).1.render = b.render ∧ p.2 = true)
  | [], st, _ => by
      refine ⟨rfl, fun p hp => Or.inl ⟨p, hp, rfl⟩, fun p hp hpt => Or.inl ⟨p, hp, rfl, hpt⟩,
        fun q hq hqt => ⟨q, hq, rfl, hqt⟩, fun b hb => absurd hb (by simp)⟩
  | e :: evs, st, hev => by
      have hne : noP2p e.addr := hev e (by simp)
      have hevs : ∀ ev ∈ evs, noP2p ev.addr := fun ev h => hev ev (by simp [h])
      have key : runObsEvents self st (e :: evs) =
          runObsEvents self (applyObsEvent self st e) evs := rfl
      obtain ⟨ih1, ih2, ih3, ih4, ih5⟩ := runObsEvents_spec self evs (applyObsEvent self st e) hevs
      -- single-step facts
      have s1 : (applyObsEvent self st e).announce = st.announce := by
        cases e with
        | add a =>
            unfold applyObsEvent addObservedAddr
            dsimp only
            split <;> rfl
        | confirm a =>
            rfl
      have s2 : ∀ p ∈ (applyObsEvent self st e).observed,
          (∃ q ∈ st.observed, (q : Multiaddr × Bool).1 = p.1) ∨ e.addr = p.1 := by
        cases e with
        | add a =>
            intro p hp
            unfold applyObsEvent addObservedAddr at hp
            dsimp only at hp
            rw [stripPeerId_of_noP2p a self hne] at hp
            by_cases hany : st.observed.any (fun q => q.1.render == a.render)
            · rw [if_pos hany] at hp
              exact Or.inl ⟨p, hp, rfl⟩
            · rw [if_neg hany] at hp
              dsimp only at hp
              rcases List.mem_append.mp hp with hp | hp
              · exact Or.inl ⟨p, hp, rfl⟩
              · simp only [List.mem_singleton] at hp
                exact Or.inr (by simp [ObsEvent.addr, hp])
        | confirm a =>
            intro p hp
            unfold applyObsEvent confirmObservedAddr obsSet at hp
            dsimp only at hp
            rw [stripPeerId_of_noP2p a self hne] at hp
            by_cases hany : st.observed.any (fun q => q.1.render == a.render)
            · rw [if_pos hany] at hp
              obtain ⟨q, hq, hqe⟩ := List.mem_map.mp hp
              refine Or.inl ⟨q, hq, ?_⟩
              by_cases hr : q.1.render == a.render
              · rw [if_pos hr] at hqe
                rw [← hqe]
              · rw [if_neg hr] at hqe
                rw [hqe]
            · rw [if_neg hany] at hp
              rcases List.mem_append.mp hp with hp | hp
              · exact Or.inl ⟨p, hp, rfl⟩
              · simp only [List.mem_singleton] at hp
                exact Or.inr (by simp [ObsEvent.addr, hp])
      have s3 : ∀ p ∈ (applyObsEvent self st e).observed, p.2 = true →
          (∃ q ∈ st.observed, (q : Multiaddr × Bool).1.render = p.1.render ∧ q.2 = true) ∨
            ∃ b, e = ObsEvent.confirm b ∧ b.render = p.1.render := by
        cases e with
        | add a =>
            intro p hp hpt
            unfold applyObsEvent addObservedAddr at hp
            dsimp only at hp
            rw [stripPeerId_of_noP2p a self hne] at hp
            by_cases hany : st.observed.any (fun q => q.1.render == a.render)
            · rw [if_pos hany] at hp
              exact Or.inl ⟨p, hp, rfl, hpt⟩
            · rw [if_neg hany] at hp
              dsimp only at hp
              rcases List.mem_append.mp hp with hp | hp
              · exact Or.inl ⟨p, hp, rfl, hpt⟩
              · simp only [List.mem_singleton] at hp
                rw [hp] at hpt
                cases hpt
        | confirm a =>
            intro p hp hpt
            unfold applyObsEvent confirmObservedAddr obsSet at hp
            dsimp only at hp
            rw [stripPeerId_of_noP2p a self hne] at hp
            by_cases hany : st.observed.any (fun q => q.1.render == a.render)
            · rw [if_pos hany] at hp
              obtain ⟨q, hq, hqe⟩ := List.mem_map.mp hp
              by_cases hr : q.1.render == a.render
              · rw [if_pos hr] at hqe
                refine Or.inr ⟨a, rfl, ?_⟩
                rw [← hqe]
                exact (beq_iff_eq.mp hr).symm
              · rw [if_neg hr] at hqe
                exact Or.inl ⟨q, hq, by rw [hqe], by rw [hqe]; exact hpt⟩
            · rw [if_neg hany] at hp
              rcases List.mem_append.mp hp with hp | hp
              · exact Or.inl ⟨p, hp, rfl, hpt⟩
              · simp only [List.mem_singleton] at hp
                exact Or.inr ⟨a, rfl, by rw [hp]⟩
      have s4 : ∀ q ∈ st.observed, (q : Multiaddr × Bool).2 = true →
          ∃ p ∈ (applyObsEvent self st e).observed,
            (p : Multiaddr × Bool).1.render = q.1.render ∧ p.2 = true := by
        cases e with
        | add a =>
            intro q hq hqt
            unfold applyObsEvent addObservedAddr
            dsimp only
            rw [stripPeerId_of_noP2p a self hne]
            by_cases hany : st.observed.any (fun q => q.1.render == a.render)
            · rw [if_pos hany]
              exact ⟨q, hq, rfl, hqt⟩
            · rw [if_neg hany]
              exact ⟨q, List.mem_append.mpr (Or.inl hq), rfl, hqt⟩
        | confirm a =>
            intro q hq hqt
            unfold applyObsEvent confirmObservedAddr obsSet
            dsimp only
            rw [stripPeerId_of_noP2p a self hne]
            by_cases hany : st.observed.any (fun q => q.1.render == a.render)
            · rw [if_pos hany]
              by_cases hr : q.1.render == a.render
              · exact ⟨(q.1, true), List.mem_map.mpr ⟨q, hq, by rw [if_pos hr]⟩, rfl, rfl⟩
              · exact ⟨q, List.mem_map.mpr ⟨q, hq, by rw [if_neg hr]⟩, rfl, hqt⟩
            · rw [if_neg hany]
              exact ⟨q, List.mem_append.mpr (Or.inl hq), rfl, hqt⟩
      have s5 : ∀ b, e = ObsEvent.confirm b →
          ∃ p ∈ (applyObsEvent self st e).observed,
            (p : Multiaddr × Bool).1.render = b.render ∧ p.2 = true := by
        intro b hb
        subst hb
        unfold applyObsEvent confirmObservedAddr obsSet
        dsimp only
        rw [stripPeerId_of_noP2p b self hne]
        by_cases hany : st.observed.any (fun q => q.1.render == b.render)
        · rw [if_pos hany]
          obtain ⟨q, hq, hr⟩ := List.any_eq_true.mp hany
          exact ⟨(q.1, true), List.mem_map.mpr ⟨q, hq, by rw [if_pos hr]⟩,
            beq_iff_eq.mp hr, rfl⟩
        · rw [if_neg hany]
          exact ⟨(b, true), List.mem_append.mpr (Or.inr (by simp)), rfl, rfl⟩
      rw [key]
      refine ⟨ih1.trans s1, ?_, ?_, ?_, ?_⟩
      · intro p hp
        rcases ih2 p hp with ⟨q, hq, hqe⟩ | ⟨ev, hevm, heva⟩
        · rcases s2 q hq with ⟨q', hq', hq'e⟩ | hqa
          · exact Or.inl ⟨q', hq', hq'e.trans hqe⟩
          · exact Or.inr ⟨e, by simp, hqa.trans hqe⟩
        · exact Or.inr ⟨ev, by simp [hevm], heva⟩
      · intro p hp hpt
        rcases ih3 p hp hpt with ⟨q, hq, hqr, hqt⟩ | ⟨b, hbm, hbr⟩
        · rcases s3 q hq hqt with ⟨q', hq', hq'r, hq't⟩ | ⟨b, hbe, hbr⟩
          · exact Or.inl ⟨q', hq', hq'r.trans hqr, hq't⟩
          · exact Or.inr ⟨b, by simp [hbe], hbr.trans hqr⟩
        · exact Or.inr ⟨b, by simp [hbm], hbr⟩
      · intro q hq hqt
        obtain ⟨p1, hp1, hp1r, hp1t⟩ := s4 q hq hqt
        obtain ⟨p2, hp2, hp2r, hp2t⟩ := ih4 p1 hp1 hp1t
        exact ⟨p2, hp2, hp2r.trans hp1r, hp2t⟩
      · intro b hb
        rcases List.mem_cons.mp hb with hb | hb
        · obtain ⟨p1, hp1, hp1r, hp1t⟩ := s5 b hb.symm
          obtain ⟨p2, hp2, hp2r, hp2t⟩ := ih4 p1 hp1 hp1t
          exact ⟨p2, hp2, hp2r.trans hp1r, hp2t⟩
        · exact ih5 b hb

/-- C8: with the default (identity) announce filter and no DNS mappings,
an observed address whose string form collides with nothing else is
included in `getAddresses()` (in its advertised form) iff a
`confirmObservedAddr` call for it occurred; in particular an address only
ever passed to `addObservedAddr` never appears. -/
theorem observed_addr_promotion (self : PeerId)
    (announce transportAddrs : List Multiaddr) (events : List ObsEvent)
    (a : Multiaddr) (_hna : noP2p a)
    (hev : ∀ ev ∈ events, noP2p ev.addr)
    (hev1 : ∀ ev ∈ events, (ObsEvent.addr ev).render = a.render → ObsEvent.addr ev = a)
    (hev2 : ∀ ev ∈ events,
      (advertiseForm self (ObsEvent.addr ev)).render =
        (advertiseForm self a).render → ObsEvent.addr ev = a)
    (hbase : ∀ b ∈ (if announce.length = 0 then transportAddrs else announce),
      (advertiseForm self b).render ≠ (advertiseForm self a).render ∧
        b.render ≠ a.render) :
    ((AddressManager.getAddresses self transportAddrs [] (fun l => l)
        (runObsEvents self ⟨announce, []⟩ events)).any
      (fun m => m.render == (advertiseForm self a).render) = true) ↔
    ObsEvent.confirm a ∈ events := by
  obtain ⟨hann, hkeys, htrue, _, hconf⟩ :=
    runObsEvents_spec self events ⟨announce, []⟩ hev
  have hkeys' : ∀ p ∈ (runObsEvents self ⟨announce, []⟩ events).observed,
      ∃ ev ∈ events, ObsEvent.addr ev = (p : Multiaddr × Bool).1 := by
    intro p hp
    rcases hkeys p hp with ⟨q, hq, _⟩ | h
    · exact absurd hq (by simp)
    · exact h
  have htrue' : ∀ p ∈ (runObsEvents self ⟨announce, []⟩ events).observed,
      (p : Multiaddr × Bool).2 = true →
      ∃ b, ObsEvent.confirm b ∈ events ∧ b.render = p.1.render := by
    intro p hp hpt
    rcases htrue p hp hpt with ⟨q, hq, _⟩ | h
    · exact absurd hq (by simp)
    · exact h
  rw [getAddresses_no_mappings, hann, List.any_eq_true]
  constructor
  · rintro ⟨m, hm, hmr⟩
    rw [beq_iff_eq] at hmr
    obtain ⟨y, hy, rfl⟩ := List.mem_map.mp hm
    rcases (dedupeByRender_go _ []).1 y hy with hy0 | hy0
    · exact absurd hy0 (by simp)
    rcases List.mem_append.mp hy0 with hyb | hyo
    · exact absurd hmr (hbase y hyb).1
    · obtain ⟨p, hpmem, hpe⟩ := List.mem_map.mp hyo
      have hpobs := List.mem_of_mem_filter hpmem
      have hpt : p.2 = true := by
        have := List.of_mem_filter hpmem
        simpa using this
      obtain ⟨ev, hevm, heva⟩ := hkeys' p hpobs
      have hya : y = a := by
        have := hev2 ev hevm
        rw [heva, hpe] at this
        exact hpe ▸ this hmr
      obtain ⟨b, hbm, hbr⟩ := htrue' p hpobs hpt
      have hba : b = a := by
        have := hev1 (ObsEvent.confirm b) hbm
        simp only [ObsEvent.addr] at this
        rw [hpe, hya] at hbr
        exact this hbr
      exact hba ▸ hbm
  · intro hc
    obtain ⟨p, hpobs, hpr, hpt⟩ := hconf a hc
    obtain ⟨ev, hevm, heva⟩ := hkeys' p hpobs
    have hpa : p.1 = a := by
      have := hev1 ev hevm
      rw [heva] at this
      exact this hpr
    have hain : a ∈ (if announce.length = 0 then transportAddrs else announce) ++
        ((runObsEvents self ⟨announce, []⟩ events).observed.filter
          (fun e => e.2)).map (fun e => e.1) := by
      refine List.mem_append.mpr (Or.inr (List.mem_map.mpr ⟨p, ?_, hpa⟩))
      exact List.mem_filter.mpr ⟨hpobs, by simpa using hpt⟩
    obtain ⟨y, hy, hyr⟩ := (dedupeByRender_go _ []).2 a
      (by rw [List.nil_append]; exact hain)
    have hya : y = a := by
      rcases (dedupeByRender_go _ []).1 y hy with hy0 | hy0
      · exact absurd hy0 (by simp)
      rcases List.mem_append.mp hy0 with hyb | hyo
      · exact absurd hyr (hbase y hyb).2
      · obtain ⟨q, hqmem, hqe⟩ := List.mem_map.mp hyo
        obtain ⟨ev', hev'm, hev'a⟩ := hkeys' q (List.mem_of_mem_filter hqmem)
        have := hev1 ev' hev'm
        rw [hev'a, hqe] at this
        exact hqe ▸ this hyr
    refine ⟨advertiseForm self a, List.mem_map.mpr ⟨y, hy, by rw [hya]⟩, ?_⟩
    exact beq_iff_eq.mpr rfl

/-- Witness for C8: one added-then-confirmed observed address appears in
the advertised set. -/
theorem observed_addr_promotion_witness :
    (noP2p maObs ∧
      (∀ ev ∈ [ObsEvent.add maObs, ObsEvent.confirm maObs], noP2p ev.addr)) ∧
    (((AddressManager.getAddresses "QmSelf" [maTcp] [] (fun l => l)
        (runObsEvents "QmSelf" ⟨[], []⟩
          [ObsEvent.add maObs, ObsEvent.confirm maObs])).any
      (fun m => m.render == (advertiseForm "QmSelf" maObs).render) = true) ↔
    ObsEvent.confirm maObs ∈ [ObsEvent.add maObs, ObsEvent.confirm maObs]) :=
  ⟨⟨by decide, by decide⟩,
    observed_addr_promotion "QmSelf" [] [maTcp]
      [ObsEvent.add maObs, ObsEvent.confirm maObs] maObs
      (by decide) (by decide) (by decide) (by decide) (by decide)⟩

/-- C4 (amended): the `connection:open` identify handler never closes or
aborts the connection — every identify failure, including a proven
peer-id mismatch, is only logged. -/
theorem connection_open_identify_never_aborts (derivePeerId : String → PeerId)
    (self remotePeer : PeerId) (store : PeerId → Option StoredPeer)
    (msg : IdentifyMessage) (conn : ConnState) :
    (onConnectionOpenIdentify derivePeerId self remotePeer store msg conn).1 =
      conn := by
  unfold onConnectionOpenIdentify
  cases identifyStep derivePeerId self remotePeer (store remotePeer) msg with
  | error e => rfl
  | ok pr => rfl

end Libp2p
